import Mathlib

/-!
# Verification of the default IPAM allocator

Shallow embedding of the default IPAM (IP address management) allocator:
the `ipbits` prefix arithmetic, the pool registry (`addrSpace`) with its
dynamic subnet picker and double cursor, the Fisher-Yates shuffler, and the
pool identifier string round-trip.

Go's `netip.Addr` is modelled as a family tag plus a `Nat` value
(`< 2^32` for IPv4, `< 2^128` for IPv6); `netip.Prefix` as an address plus
an `Int` bit count (`-1` meaning invalid, mirroring `bitsPlusOne = 0`).
Machine integers are `Nat` with explicit wrap-around (`% 2^w`) where the Go
code can overflow.
-/

deriving instance DecidableEq for Except

open scoped List

namespace IPAM

/-- Address family of a `netip.Addr`: the zero `Addr` has no family. -/
inductive Fam where
  | none
  | v4
  | v6
deriving DecidableEq, Repr

/-- Bit width of an address family (`Addr.BitLen`): 0, 32 or 128. -/
def Fam.width : Fam → Nat
  | .none => 0
  | .v4 => 32
  | .v6 => 128

/-- Model of `netip.Addr`: family tag plus numeric value (big-endian
integer reading of the bytes). Well-formed values satisfy `val < 2^width`. -/
structure Addr where
  fam : Fam
  val : Nat
deriving DecidableEq, Repr

/-- The zero `netip.Addr{}` (invalid). -/
def zeroAddr : Addr := ⟨.none, 0⟩

/-- `Addr.IsValid`. -/
def Addr.isValid (a : Addr) : Bool := a.fam != .none

/-- `Addr.Is4`. -/
def Addr.is4 (a : Addr) : Bool := a.fam == .v4

/-- `Addr.BitLen`. -/
def Addr.bitLen (a : Addr) : Nat := a.fam.width

/-- Well-formedness: the numeric value fits the family width. -/
def Addr.WF (a : Addr) : Prop := a.val < 2 ^ a.fam.width

instance (a : Addr) : Decidable a.WF := by unfold Addr.WF; infer_instance

/-- `Addr.Compare`: invalid sorts before IPv4 sorts before IPv6 (by
`BitLen`), then by numeric value. Returns a negative, zero or positive
integer. -/
def addrCompare (a b : Addr) : Int :=
  if a.bitLen < b.bitLen then -1
  else if b.bitLen < a.bitLen then 1
  else if a.val < b.val then -1
  else if b.val < a.val then 1
  else 0

/-- `Addr.Less`. -/
def Addr.less (a b : Addr) : Bool := addrCompare a b < 0

/-- Model of `netip.Prefix`: an address plus a bit count; `bits = -1`
encodes an invalid prefix (Go stores `bitsPlusOne = 0`). -/
structure Prefix where
  ip : Addr
  bits : Int
deriving DecidableEq, Repr

/-- The zero `netip.Prefix{}`. -/
def zeroPrefix : Prefix := ⟨zeroAddr, -1⟩

/-- `Prefix.IsValid`. -/
def Prefix.isValid (p : Prefix) : Bool := p.ip.isValid && decide (0 ≤ p.bits)

/-- `netip.PrefixFrom`: keeps the address; an out-of-range bit count (or an
invalid address) yields `bits = -1`, mirroring `bitsPlusOne = 0`. -/
def prefixFrom (ip : Addr) (bits : Int) : Prefix :=
  if ip.isValid && decide (0 ≤ bits) && decide (bits ≤ (ip.bitLen : Int)) then
    ⟨ip, bits⟩
  else
    ⟨ip, -1⟩

/-- Well-formedness of a prefix: valid, fits its family. -/
def Prefix.WF (p : Prefix) : Prop :=
  p.ip.fam ≠ .none ∧ p.ip.WF ∧ 0 ≤ p.bits ∧ p.bits ≤ (p.ip.bitLen : Int)

instance (p : Prefix) : Decidable p.WF := by unfold Prefix.WF; infer_instance

/-- Keep the top `bits` bits of a `w`-bit value, clearing host bits. -/
def maskVal (w bits v : Nat) : Nat := v / 2 ^ (w - bits) * 2 ^ (w - bits)

/-- Mask an address to `b` bits (the address part of `Addr.Prefix`). -/
def Addr.maskTo (a : Addr) (b : Nat) : Addr :=
  ⟨a.fam, maskVal a.bitLen b a.val⟩

/-- `Prefix.Masked`: canonical form with host bits cleared; the zero prefix
when invalid (as `Addr.Prefix` errors). -/
def Prefix.masked (p : Prefix) : Prefix :=
  if p.isValid && decide (p.bits ≤ (p.ip.bitLen : Int)) then
    ⟨p.ip.maskTo p.bits.toNat, p.bits⟩
  else zeroPrefix

/-- `Prefix.Overlaps`: both valid, same family, and equal after masking
both addresses to the shorter bit count. -/
def Prefix.overlaps (p o : Prefix) : Bool :=
  if !p.isValid || !o.isValid then false
  else if p == o then true
  else if p.ip.is4 != o.ip.is4 then false
  else
    let minBits : Int := min p.bits o.bits
    if minBits == 0 then true
    else
      let w := p.ip.bitLen
      maskVal w minBits.toNat p.ip.val == maskVal w minBits.toNat o.ip.val

/-- `Prefix.Contains`: the address, masked to the prefix length, matches
the prefix's own masked address (families compared via `Is4`). -/
def Prefix.containsAddr (p : Prefix) (a : Addr) : Bool :=
  if !p.isValid then false
  else if p.ip.is4 != a.is4 then false
  else
    let w := p.ip.bitLen
    maskVal w p.bits.toNat a.val == maskVal w p.bits.toNat p.ip.val

/-! ## ipbits (prefix arithmetic), translated from the source -/

/-- Go `uint(x)` conversion of a possibly negative `int`: wraps at 2^64. -/
def goUint (x : Int) : Nat :=
  if 0 ≤ x then x.toNat else (2 ^ 64 + x).toNat

/-- `subAddr`: `ip1 - ip2` with uint32 wrap-around for IPv4 and 128-bit
wrap-around otherwise (the `uint128` path, which the zero `Addr` also
takes since `Is4` is false for it). -/
def subAddr (ip1 ip2 : Addr) : Nat :=
  if ip1.is4 then (2 ^ 32 + ip1.val - ip2.val) % 2 ^ 32
  else (2 ^ 128 + ip1.val - ip2.val) % 2 ^ 128

/-- `uint128.uint64`: saturating conversion, capped at `math.MaxUint64`
(per the `Distance` doc comment). -/
def sat64 (x : Nat) : Nat := min x (2 ^ 64 - 1)

/-- `ipbits.Distance`: number of size-`sz` subnets between `p1` and `p2`,
both masked to `sz`, capped at 2^64 - 1; 0 when either prefix is invalid,
the families differ, or `p2 < p1`. Translated line by line from the
source. -/
def distance (p1 p2 : Prefix) (sz : Int) : Nat :=
  if !p1.isValid || !p2.isValid || (p1.ip.is4 != p2.ip.is4)
      || p2.ip.less p1.ip then 0
  else
    let q1 := (prefixFrom p1.ip sz).masked
    let q2 := (prefixFrom p2.ip sz).masked
    sat64 (subAddr q2.ip q1.ip >>> goUint ((q1.ip.bitLen : Int) - sz))

/-! ## netiputil and ipamutils helpers (repo packages not under src/) -/

/-- Modelled from the spec: `netiputil.Compare`, the sort order of prefix
lists ("sorted by first address"; ties broken by prefix length so the
order is total). Source package `netiputil` is not under src/. -/
def netiputilCompare (a b : Prefix) : Int :=
  let c := addrCompare a.ip b.ip
  if c == 0 then a.bits - b.bits else c

/-- Modelled from the spec: `netiputil.LastAddr`, "the last address of a
prefix": the masked base plus the host span. Source package `netiputil`
is not under src/. -/
def lastAddr (p : Prefix) : Addr :=
  if p.isValid then
    ⟨p.ip.fam, maskVal p.ip.bitLen p.bits.toNat p.ip.val
      + 2 ^ (p.ip.bitLen - p.bits.toNat) - 1⟩
  else zeroAddr

/-- Modelled from the spec: `netiputil.HostID(addr, parent_bits)`,
"extract the host portion" of an address. Source package `netiputil` is
not under src/. -/
def hostID (a : Addr) (bits : Nat) : Nat := a.val % 2 ^ (a.bitLen - bits)

/-- Modelled from the spec: `netiputil.PrefixAfter(p, size)`, "the next
size-`size` prefix immediately after the end of `p`; returns an invalid
prefix if the next one would exceed the address family". The first
size-aligned block starting after the last address of `p`. Source package
`netiputil` is not under src/. -/
def prefixAfter (p : Prefix) (sz : Int) : Prefix :=
  let w := p.ip.bitLen
  if !p.isValid || decide (sz < 0) || decide ((w : Int) < sz) then zeroPrefix
  else
    let step := 2 ^ (w - sz.toNat)
    let end1 := maskVal w p.bits.toNat p.ip.val + 2 ^ (w - p.bits.toNat)
    let start := (end1 + step - 1) / step * step
    if 2 ^ w ≤ start then zeroPrefix
    else prefixFrom ⟨p.ip.fam, start⟩ sz

/-- `ipamutils.NetworkToSplit`: a predefined network `(Base, Size)`. -/
structure NetworkToSplit where
  base : Prefix
  size : Int
deriving DecidableEq, Repr

/-- Modelled from the spec: `NetworkToSplit.FirstPrefix`, the first
size-`Size` prefix of the base network (the source's picker also builds it
as `netip.PrefixFrom(pdf.Base.Addr(), pdf.Size)`). Package `ipamutils` is
not under src/. -/
def NetworkToSplit.firstPrefix (n : NetworkToSplit) : Prefix :=
  prefixFrom n.base.ip n.size

/-- Modelled from the spec: `NetworkToSplit.Overlaps` delegates to the
base prefix. Package `ipamutils` is not under src/. -/
def NetworkToSplit.overlapsP (n : NetworkToSplit) (p : Prefix) : Bool :=
  n.base.overlaps p

/-! ## Errors of the allocator -/

/-- Error taxonomy of the allocator (`ipamapi` sentinel errors plus the
`types` error categories; messages are irrelevant to behaviour and
dropped). `fuelExhausted` is an artifact of embedding the picker loop with
fuel; the main entry point always supplies enough fuel (each iteration of
the Go loop advances the double cursor or `pdfID`, both bounded). -/
inductive Err where
  | poolOverlap
  | noMoreSubnets
  | badPool
  | notFound
  | invalidParameter
  | ipOutOfRange
  | noMoreAddresses
  | alreadyAllocated
  | outOfRange
  | prefixZero
  | fuelExhausted
deriving DecidableEq, Repr

/-! ## Bitmap sequence (repo package `bitmap`, not under src/) -/

/-- Modelled from the spec: the bitmap sequence over the host identifiers
of a pool: a capacity, the list of set ordinals and the allocation cursor
used by non-serial scans. Package `bitmap` is not under src/. -/
structure Bitmap where
  size : Nat
  taken : List Nat
  curr : Nat
deriving DecidableEq, Repr

/-- First ordinal not in `taken`, scanning `cnt` candidates upward from
`start`. -/
def findFree (taken : List Nat) : Nat → Nat → Option Nat
  | _, 0 => none
  | start, cnt + 1 =>
    if start ∈ taken then findFree taken (start + 1) cnt else some start

/-- Modelled from the spec: `bitmap.Set(n)`: fails with `OutOfRange`
beyond capacity, fails when the bit is already set, otherwise sets it. -/
def bitmapSet (b : Bitmap) (n : Nat) : Except Err Bitmap :=
  if b.size ≤ n then .error .outOfRange
  else if n ∈ b.taken then .error .alreadyAllocated
  else .ok { b with taken := n :: b.taken }

/-- Modelled from the spec: `bitmap.SetAnyInRange(lo, hi, serial)`: the
lowest free bit in `[lo, hi]` when `serial`, otherwise the first free bit
scanning from the cursor forward and wrapping once to `lo`; fails with
`NoMoreBits` when the window has no free bit, without mutating. -/
def bitmapSetAnyInRange (b : Bitmap) (lo hi : Nat) (serial : Bool) :
    Except Err (Nat × Bitmap) :=
  if b.size ≤ hi || hi < lo then .error .outOfRange
  else
    let begin_ := if serial || b.curr < lo || hi < b.curr then lo else b.curr
    match findFree b.taken begin_ (hi + 1 - begin_) with
    | some n => .ok (n, { b with taken := n :: b.taken, curr := n + 1 })
    | none =>
      if serial then .error .noMoreAddresses
      else
        match findFree b.taken lo (begin_ - lo) with
        | some n => .ok (n, { b with taken := n :: b.taken, curr := n + 1 })
        | none => .error .noMoreAddresses

/-- Modelled from the spec: `bitmap.SetAny(serial)` over the whole
sequence. -/
def bitmapSetAny (b : Bitmap) (serial : Bool) : Except Err (Nat × Bitmap) :=
  if b.size = 0 then .error .noMoreAddresses
  else bitmapSetAnyInRange b 0 (b.size - 1) serial

/-- Modelled from the spec: `bitmap.Unset(n)`: fails with `OutOfRange`
beyond capacity, otherwise clears the bit. -/
def bitmapUnset (b : Bitmap) (n : Nat) : Except Err Bitmap :=
  if b.size ≤ n then .error .outOfRange
  else .ok { b with taken := b.taken.filter (fun m => m ≠ n) }

/-- Number of unset bits (`bitmap.Unselected`). -/
def Bitmap.unselected (b : Bitmap) : Nat :=
  b.size - (b.taken.dedup).length

/-! ## Pool data and address space (translated from the source) -/

/-- `PoolData`: bitmap over the pool's host identifiers, the set of child
sub-ranges, and the auto-release flag. -/
structure PoolData where
  addrs : Bitmap
  children : List Prefix
  autoRelease : Bool
deriving DecidableEq, Repr

/-- `newPoolData`: fresh pool data with a bitmap over all
`2^(bitlen - prefix_len)` host identifiers (per the spec's data model;
`pool_data.go` is not under src/). -/
def newPoolData (pool : Prefix) : PoolData :=
  { addrs := { size := 2 ^ (pool.ip.bitLen - pool.bits.toNat), taken := [], curr := 0 }
    children := []
    autoRelease := false }

/-- Lookup in the `subnets` map (modelled as an association list). -/
def msLookup (m : List (Prefix × PoolData)) (k : Prefix) : Option PoolData :=
  (m.find? (fun e => e.1 == k)).map (·.2)

/-- Insert or overwrite in the `subnets` map (keys are unique, so
replacing the first match models the Go map assignment). -/
def msInsert : List (Prefix × PoolData) → Prefix → PoolData →
    List (Prefix × PoolData)
  | [], k, v => [(k, v)]
  | e :: rest, k, v =>
    if e.1 == k then (k, v) :: rest else e :: msInsert rest k v

/-- Delete from the `subnets` map. -/
def msErase (m : List (Prefix × PoolData)) (k : Prefix) :
    List (Prefix × PoolData) :=
  m.filter (fun e => !(e.1 == k))

/-- `addrSpace`: ordered list of allocated subnets, the subnets map, and
the predefined pools. (The mutex and the ULA shuffler field play no role
in the operations under src/.) -/
structure AddrSpace where
  allocated : List Prefix
  subnets : List (Prefix × PoolData)
  predefined : List NetworkToSplit
deriving DecidableEq, Repr

/-- Insertion step of `newAddrSpace`'s sort (insertion sort by
`netiputilCompare` on the base; `slices.SortFunc` is unstable but entries
comparing equal have equal bases, so only duplicate bases could differ,
and those are discarded right after). -/
def insertNts (n : NetworkToSplit) : List NetworkToSplit → List NetworkToSplit
  | [] => [n]
  | m :: rest =>
    if netiputilCompare n.base m.base ≤ 0 then n :: m :: rest
    else m :: insertNts n rest

/-- Sort the predefined list by base prefix. -/
def sortNts (l : List NetworkToSplit) : List NetworkToSplit :=
  l.foldr insertNts []

/-- The discard pass of `newAddrSpace`: drop any entry whose base overlaps
the last kept entry (longer prefixes sorted after the shorter one they
overlap). -/
def discardOverlapping : Option Prefix → List NetworkToSplit → List NetworkToSplit
  | _, [] => []
  | last, p :: rest =>
    match last with
    | some l =>
      if l.overlaps p.base then discardOverlapping (some l) rest
      else p :: discardOverlapping (some p.base) rest
    | Option.none => p :: discardOverlapping (some p.base) rest

/-- `newAddrSpace`: validate and mask the predefined bases, sort them, and
discard longer overlapping prefixes. -/
def newAddrSpace (predefined : List NetworkToSplit) : Except Err AddrSpace :=
  if predefined.any (fun p => !p.base.isValid) then .error .prefixZero
  else
    let masked := predefined.map (fun p => { p with base := p.base.masked })
    let sorted := sortNts masked
    .ok { allocated := []
          subnets := []
          predefined := discardOverlapping Option.none sorted }

/-- `overlaps`: whether `nw` shares addresses with any existing subnet. -/
def AddrSpace.overlapsAny (st : AddrSpace) (nw : Prefix) : Bool :=
  st.allocated.any (fun allocated => allocated.overlaps nw)

/-- Insertion position of `allocatePool`: before the first entry with a
strictly greater address, else at the end. -/
def insertAllocated (nw : Prefix) : List Prefix → List Prefix
  | [] => [nw]
  | a :: rest =>
    if addrCompare nw.ip a.ip < 0 then nw :: a :: rest
    else a :: insertAllocated nw rest

/-- `allocatePool`: insert `nw` into the ordered list and create its pool
data (the Go function always returns nil). -/
def AddrSpace.allocatePool (st : AddrSpace) (nw : Prefix) : AddrSpace :=
  { st with allocated := insertAllocated nw st.allocated
            subnets := msInsert st.subnets nw (newPoolData nw) }

/-- Add a child prefix to a pool's child set. -/
def addChild (children : List Prefix) (sub : Prefix) : List Prefix :=
  if sub ∈ children then children else children ++ [sub]

/-- Update one pool's data in the map (first match, as keys are
unique). -/
def msUpdate : List (Prefix × PoolData) → Prefix → (PoolData → PoolData) →
    List (Prefix × PoolData)
  | [], _, _ => []
  | e :: rest, k, f =>
    if e.1 == k then (e.1, f e.2) :: rest else e :: msUpdate rest k f

/-- `allocateSubnetL`: without a child, refuse overlapping parents; with a
child, allocate the parent if missing (marking it auto-release) and add
the child, skipping the overlap check. Returns the result together with
the resulting address space (unchanged on error). -/
def AddrSpace.allocateSubnetL (st : AddrSpace) (nw sub : Prefix) :
    Except Err Unit × AddrSpace :=
  if sub = zeroPrefix then
    if st.overlapsAny nw then (.error .poolOverlap, st)
    else (.ok (), st.allocatePool nw)
  else
    let st' :=
      match msLookup st.subnets nw with
      | some _ => st
      | Option.none =>
        let st1 := st.allocatePool nw
        let m1 := msUpdate st1.subnets nw (fun pd => { pd with autoRelease := true })
        { st1 with subnets := m1 }
    let m2 := msUpdate st'.subnets nw
      (fun pd => { pd with children := addChild pd.children sub })
    (.ok (), { st' with subnets := m2 })

/-- `allocateSubnet`: fail with `PoolOverlap` when the exact pool (or the
exact child) already exists, otherwise defer to `allocateSubnetL`. -/
def AddrSpace.allocateSubnet (st : AddrSpace) (nw sub : Prefix) :
    Except Err Unit × AddrSpace :=
  match msLookup st.subnets nw with
  | some pool =>
    let childExists := sub ≠ zeroPrefix ∧ sub ∈ pool.children
    if sub = zeroPrefix ∨ childExists then (.error .poolOverlap, st)
    else st.allocateSubnetL nw sub
  | Option.none => st.allocateSubnetL nw sub

/-! ## Double cursor and the dynamic subnet picker -/

/-- `doubleCursor`: co-iterates two sorted prefix lists in merged order.
The comparison closure used by the picker (`a.Addr().Less(b.Addr())`) is
baked in. -/
structure DC where
  a : List Prefix
  b : List Prefix
  ia : Nat
  ib : Nat
  lastA : Bool
deriving DecidableEq, Repr

/-- `doubleCursor.Get`: the smaller of the two current heads (recording
which side it came from), an exhausted side yielding to the other, and the
zero prefix when both are exhausted. -/
def dcGet (dc : DC) : Prefix × DC :=
  if ha : dc.ia < dc.a.length then
    if hb : dc.ib < dc.b.length then
      if (dc.a.get ⟨dc.ia, ha⟩).ip.less (dc.b.get ⟨dc.ib, hb⟩).ip then
        (dc.a.get ⟨dc.ia, ha⟩, { dc with lastA := true })
      else
        (dc.b.get ⟨dc.ib, hb⟩, { dc with lastA := false })
    else (dc.a.get ⟨dc.ia, ha⟩, { dc with lastA := true })
  else if hb : dc.ib < dc.b.length then
    (dc.b.get ⟨dc.ib, hb⟩, { dc with lastA := false })
  else (zeroPrefix, dc)

/-- `doubleCursor.Inc`: advance the side the last `Get` returned. -/
def dcInc (dc : DC) : DC :=
  if dc.lastA then { dc with ia := dc.ia + 1 } else { dc with ib := dc.ib + 1 }

/-- `slices.Insert(l, i, x)` for the valid indices `i ≤ l.length`. -/
def insertAt (l : List Prefix) (i : Nat) (x : Prefix) : List Prefix :=
  l.take i ++ x :: l.drop i

/-- Insert a freshly picked prefix at cursor position `i` and register its
pool data (the success epilogue shared by all return sites of the
picker). -/
def AddrSpace.commitPick (st : AddrSpace) (i : Nat) (next : Prefix) : AddrSpace :=
  { st with allocated := insertAt st.allocated i next
            subnets := msInsert st.subnets next (newPoolData next) }

/-- Insertion sort step by `netiputilCompare` for the reserved list. -/
def insertPfx (p : Prefix) : List Prefix → List Prefix
  | [] => [p]
  | q :: rest =>
    if netiputilCompare p q ≤ 0 then p :: q :: rest else q :: insertPfx p rest

/-- `slices.SortFunc(reserved, netiputil.Compare)` (the comparison is a
total order on prefixes, so any sorting algorithm gives this result). -/
def sortPrefixes (l : List Prefix) : List Prefix := l.foldr insertPfx []

instance : Inhabited NetworkToSplit := ⟨⟨zeroPrefix, 0⟩⟩

/-- The epilogue of `allocatePredefinedPool` after the double cursor is
exhausted: one more attempt after a partial overlap, then the first
untouched predefined network, else `NoMoreSubnets`. -/
def pickerTail (st : AddrSpace) (dc : DC) (pdfID : Nat) (partialOverlap : Bool)
    (prevAlloc : Prefix) : Except Err Prefix × AddrSpace :=
  if st.predefined.length ≤ pdfID then (.error .noMoreSubnets, st)
  else
    let step2 : Nat → Except Err Prefix × AddrSpace := fun pid =>
      if h : pid < st.predefined.length then
        let pdf := st.predefined.get ⟨pid, h⟩
        let next := pdf.firstPrefix
        (.ok next,
          { st with allocated := st.allocated ++ [next]
                    subnets := msInsert st.subnets next (newPoolData next) })
      else (.error .noMoreSubnets, st)
    if partialOverlap then
      let pdf := st.predefined.getD pdfID default
      let next := prefixAfter prevAlloc pdf.size
      if pdf.overlapsP next then (.ok next, st.commitPick dc.ia next)
      else step2 (pdfID + 1)
    else step2 pdfID

/-- The main loop of `allocatePredefinedPool`, translated line by line;
`fuel` bounds the iteration count (each Go iteration advances the double
cursor or `pdfID`, so `|allocated| + |reserved| + |predefined| + 1`
suffices). -/
def pickerLoop (st : AddrSpace) : Nat → DC → Nat → Bool → Prefix →
    Except Err Prefix × AddrSpace
  | 0, _, _, _, _ => (.error .fuelExhausted, st)
  | fuel + 1, dc0, pdfID, partialOverlap, prevAlloc =>
    let gp := dcGet dc0
    let allocated := gp.1
    let dc := gp.2
    if allocated = zeroPrefix then pickerTail st dc pdfID partialOverlap prevAlloc
    else if h : st.predefined.length ≤ pdfID then (.error .noMoreSubnets, st)
    else
      let pdf := st.predefined.get ⟨pdfID, by omega⟩
      if allocated.overlaps pdf.base then
        let dc := dcInc dc
        if allocated.bits ≤ pdf.base.bits then
          pickerLoop st fuel dc (pdfID + 1) false zeroPrefix
        else if !partialOverlap && 1 ≤ distance pdf.firstPrefix allocated pdf.size then
          let next := pdf.firstPrefix
          (.ok next, st.commitPick dc.ia next)
        else
          let afterPrev := prefixAfter prevAlloc pdf.size
          if partialOverlap && 1 ≤ distance afterPrev allocated pdf.size then
            (.ok afterPrev, st.commitPick dc.ia afterPrev)
          else if lastAddr allocated = lastAddr pdf.base then
            pickerLoop st fuel dc (pdfID + 1) false zeroPrefix
          else
            pickerLoop st fuel dc pdfID true allocated
      else if partialOverlap then
        let next := prefixAfter prevAlloc pdf.size
        if pdf.overlapsP next then (.ok next, st.commitPick dc.ia next)
        else pickerLoop st fuel dc (pdfID + 1) false prevAlloc
      else if pdf.base.ip.less allocated.ip then
        let next := prefixFrom pdf.base.ip pdf.size
        let st' := st.commitPick dc.ia next
        (.ok (st'.allocated.getD dc.ia zeroPrefix), st')
      else
        pickerLoop st fuel (dcInc dc) pdfID partialOverlap allocated

/-- `allocatePredefinedPool`: sort the reserved list, run the double
cursor walk over `allocated ∪ reserved` against the predefined networks,
and insert the picked prefix. -/
def AddrSpace.allocatePredefinedPool (st : AddrSpace) (reserved : List Prefix) :
    Except Err Prefix × AddrSpace :=
  let res := sortPrefixes reserved
  let dc : DC := { a := st.allocated, b := res, ia := 0, ib := 0, lastA := false }
  pickerLoop st (st.allocated.length + res.length + st.predefined.length + 1)
    dc 0 false zeroPrefix

/-! ## Release and address operations -/

/-- `deallocate`: remove the first allocated entry with the same address
and bit count, and drop its pool data. -/
def AddrSpace.deallocate (st : AddrSpace) (nw : Prefix) : AddrSpace :=
  { st with
      allocated :=
        match st.allocated.findIdx? (fun a => addrCompare a.ip nw.ip == 0 && a.bits == nw.bits) with
        | some i => st.allocated.take i ++ st.allocated.drop (i + 1)
        | Option.none => st.allocated
      subnets := msErase st.subnets nw }

/-- `releaseSubnet`: remove a child or mark the parent auto-release, then
deallocate the parent once it has no children and auto-release is set;
`BadPool` when the pool or child does not exist. -/
def AddrSpace.releaseSubnet (st : AddrSpace) (nw sub : Prefix) :
    Except Err Unit × AddrSpace :=
  match msLookup st.subnets nw with
  | Option.none => (.error .badPool, st)
  | some p =>
    if sub ≠ zeroPrefix ∧ sub ∉ p.children then (.error .badPool, st)
    else
      let p' :=
        if sub ≠ zeroPrefix then { p with children := p.children.filter (fun c => c ≠ sub) }
        else { p with autoRelease := true }
      let st' := { st with subnets := msInsert st.subnets nw p' }
      if p'.children = [] ∧ p'.autoRelease then (.ok (), st'.deallocate nw)
      else (.ok (), st')

/-- `ipbits.Add`: `ip + (x << shift)` with uint32 / 128-bit wrap-around
(`uint32(x)` truncates before shifting; the 128-bit path truncates `x` to
64 bits as `uint128From` does). -/
def goAdd (a : Addr) (x : Nat) (shift : Nat) : Addr :=
  if a.is4 then ⟨a.fam, (a.val + x % 2 ^ 32 * 2 ^ shift) % 2 ^ 32⟩
  else ⟨a.fam, (a.val + x % 2 ^ 64 * 2 ^ shift % 2 ^ 128) % 2 ^ 128⟩

/-- Modelled from the spec: `netiputil.SubnetRange`, the window of host
ordinals of child `sub` inside parent `nw` ("constrained to the child
window when present"). Package `netiputil` is not under src/. -/
def subnetRange (nw sub : Prefix) : Nat × Nat :=
  (hostID (sub.masked.ip) nw.bits.toNat, hostID (lastAddr sub) nw.bits.toNat)

/-- Modelled from the spec: `getAddress` (in `allocator.go`, not under
src/): refuse a full bitmap, then set the preferred ordinal, or any free
ordinal (optionally within the child window), serially or from the
cursor. -/
def getAddress (nw : Prefix) (b : Bitmap) (prefAddress : Addr) (sub : Prefix)
    (serial : Bool) : Except Err Nat × Bitmap :=
  if b.unselected = 0 then (.error .noMoreAddresses, b)
  else if sub = zeroPrefix ∧ prefAddress = zeroAddr then
    match bitmapSetAny b serial with
    | .ok (n, b') => (.ok n, b')
    | .error _ => (.error .noMoreAddresses, b)
  else if prefAddress ≠ zeroAddr then
    let ordinal := hostID prefAddress nw.bits.toNat
    match bitmapSet b ordinal with
    | .ok b' => (.ok ordinal, b')
    | .error _ => (.error .alreadyAllocated, b)
  else
    let r := subnetRange nw sub
    match bitmapSetAnyInRange b r.1 r.2 serial with
    | .ok (n, b') => (.ok n, b')
    | .error _ => (.error .noMoreAddresses, b)

/-- `requestAddress`: `NotFound` for an unknown pool; `IPOutOfRange` for a
preferred address outside the parent; `NotFound` for an unknown child;
otherwise pick a host ordinal from the bitmap (`serial` is the decoded
`SerialAlloc` option). -/
def AddrSpace.requestAddress (st : AddrSpace) (nw sub : Prefix)
    (prefAddress : Addr) (serial : Bool) : Except Err Addr × AddrSpace :=
  match msLookup st.subnets nw with
  | Option.none => (.error .notFound, st)
  | some p =>
    if prefAddress ≠ zeroAddr ∧ ¬nw.containsAddr prefAddress then
      (.error .ipOutOfRange, st)
    else if sub ≠ zeroPrefix ∧ sub ∉ p.children then (.error .notFound, st)
    else
      let gb := getAddress nw p.addrs prefAddress sub serial
      let m' := msUpdate st.subnets nw (fun pd => { pd with addrs := gb.2 })
      let st' := { st with subnets := m' }
      match gb.1 with
      | .ok ordinal => (.ok (goAdd nw.ip ordinal 0), st')
      | .error e => (.error e, st')

/-- `releaseAddress`: `NotFound` for an unknown pool or child,
`InvalidParameter` for an invalid address, `IPOutOfRange` for an address
outside the parent, then clear the host bit. -/
def AddrSpace.releaseAddress (st : AddrSpace) (nw sub : Prefix) (address : Addr) :
    Except Err Unit × AddrSpace :=
  match msLookup st.subnets nw with
  | Option.none => (.error .notFound, st)
  | some p =>
    if sub ≠ zeroPrefix ∧ sub ∉ p.children then (.error .notFound, st)
    else if ¬address.isValid then (.error .invalidParameter, st)
    else if ¬nw.containsAddr address then (.error .ipOutOfRange, st)
    else
      match bitmapUnset p.addrs (hostID address nw.bits.toNat) with
      | .ok b' =>
        let m' := msUpdate st.subnets nw (fun pd => { pd with addrs := b' })
        (.ok (), { st with subnets := m' })
      | .error e => (.error e, st)

/-! ## Fisher-Yates shuffler -/

/-- Lookup in the sparse permutation map. -/
def pmLookup (m : List (Nat × Nat)) (k : Nat) : Option Nat :=
  (m.find? (fun e => e.1 == k)).map (·.2)

/-- Insert or overwrite in the permutation map. -/
def pmInsert (m : List (Nat × Nat)) (k v : Nat) : List (Nat × Nat) :=
  (k, v) :: m.filter (fun e => e.1 ≠ k)

/-- Delete from the permutation map. -/
def pmDelete (m : List (Nat × Nat)) (k : Nat) : List (Nat × Nat) :=
  m.filter (fun e => e.1 ≠ k)

/-- `shuffler`: draw-without-replacement state. The seeded PRNG
(`rand.Rand`, whose `Int63n(i)` returns a value in `[0, i)`) is modelled
from the spec as an arbitrary stream `rnd` of naturals together with the
count `k` of draws made so far; each draw is taken modulo the current `i`,
so every sequence of in-range draws — hence every seed — is covered. -/
structure Shuffler where
  rnd : Nat → Nat
  k : Nat
  permuts : List (Nat × Nat)
  i : Nat

/-- `newShuffler`. -/
def newShuffler (imax : Nat) (rnd : Nat → Nat) : Shuffler :=
  { rnd := rnd, k := 0, permuts := [], i := imax }

/-- `shuffler.atPos`: the number at a position, the position itself when
no permutation is recorded. -/
def atPosM (m : List (Nat × Nat)) (pos : Nat) : Nat :=
  match pmLookup m pos with
  | some v => v
  | Option.none => pos

/-- `shuffler.pickRandom`: `(0, false)` once `i` reaches zero; otherwise
draw `pos ∈ [0, i)`, decrement `i`, answer the number at `pos`, record the
number at the new `i` at position `pos` and clear the entry at the old
`i`. -/
def pickRandom (s : Shuffler) : (Nat × Bool) × Shuffler :=
  if s.i = 0 then ((0, false), s)
  else
    let pos := s.rnd s.k % s.i
    let i' := s.i - 1
    let val := atPosM s.permuts pos
    let permuts' := pmDelete (pmInsert s.permuts pos (atPosM s.permuts i')) s.i
    ((val, true), { s with k := s.k + 1, permuts := permuts', i := i' })

/-- `shuffler.giveBack`: record `v` at position `i` and increment `i`. -/
def giveBack (s : Shuffler) (v : Nat) : Shuffler :=
  { s with permuts := pmInsert s.permuts s.i v, i := s.i + 1 }

/-- Run `n` consecutive `pickRandom` calls, collecting the outputs. -/
def runPicks (s : Shuffler) : Nat → List (Nat × Bool) × Shuffler
  | 0 => ([], s)
  | n + 1 =>
    let r := pickRandom s
    let rest := runPicks r.2 n
    (r.1 :: rest.1, rest.2)

/-- The virtual array of values still drawable from a shuffler state. -/
def window (s : Shuffler) : List Nat :=
  (List.range s.i).map (atPosM s.permuts)

/-! ## Go strings and the pool identifier

Go strings are modelled as `List Char`. `strings.Split` with a one-byte
separator, and the `netip` parsers and formatters (standard library, not
repo code), are modelled after their documented behaviour; only their
behaviour on canonically formatted addresses matters to the theorems
below. -/

/-- A Go string. -/
abbrev GoStr := List Char

/-- `strings.Split(s, sep)` for a single-character separator. -/
def splitOnChar (c : Char) : GoStr → List GoStr
  | [] => [[]]
  | x :: xs =>
    match splitOnChar c xs with
    | [] => [[x]]
    | h :: t => if x = c then [] :: h :: t else (x :: h) :: t

/-- Reversed base-`b` digits of `n` with explicit fuel (structural, so
the kernel can evaluate it; `n` itself is always enough fuel). -/
def natDigitsRevAux (b : Nat) : Nat → Nat → List Char
  | 0, _ => []
  | fuel + 1, n =>
    if n = 0 then [] else Nat.digitChar (n % b) :: natDigitsRevAux b fuel (n / b)

/-- Reversed base-10 digits of `n` (empty for 0). -/
def natToDecRev (n : Nat) : List Char := natDigitsRevAux 10 n n

/-- Canonical decimal rendering of a natural (`strconv.Itoa`). -/
def natToDec (n : Nat) : GoStr :=
  if n = 0 then [Nat.digitChar 0] else (natToDecRev n).reverse

/-- Reversed base-16 digits of `n` (empty for 0). -/
def natToHexRev (n : Nat) : List Char := natDigitsRevAux 16 n n

/-- Lowercase hexadecimal rendering of a 16-bit group (`appendHex`). -/
def natToHex (n : Nat) : GoStr :=
  if n = 0 then [Nat.digitChar 0] else (natToHexRev n).reverse

/-- Decimal digit test. -/
def isDigitC (c : Char) : Bool := c.isDigit

/-- Value of a decimal digit. -/
def digitVal (c : Char) : Nat := c.toNat - 48

/-- Hex digit test (both cases, as the Go parser accepts). -/
def isHexDigitC (c : Char) : Bool :=
  c.isDigit || (97 ≤ c.toNat && c.toNat ≤ 102) || (65 ≤ c.toNat && c.toNat ≤ 70)

/-- Value of a hex digit. -/
def hexVal (c : Char) : Nat :=
  if c.isDigit then c.toNat - 48
  else if 97 ≤ c.toNat then c.toNat - 87
  else c.toNat - 55

/-- Accumulate decimal digits. -/
def parseDecDigits (l : GoStr) : Nat := l.foldl (fun acc c => acc * 10 + digitVal c) 0

/-- The four octets of an IPv4 value, most significant first. -/
def v4Octets (v : Nat) : List Nat :=
  [v / 2 ^ 24 % 256, v / 2 ^ 16 % 256, v / 2 ^ 8 % 256, v % 256]

/-- Join string pieces with a single-character separator
(`strings.Join`). -/
def joinSep (sep : Char) : List GoStr → GoStr
  | [] => []
  | [x] => x
  | x :: y :: rest => x ++ sep :: joinSep sep (y :: rest)

/-- Dotted-decimal rendering of an IPv4 value. -/
def formatV4 (v : Nat) : GoStr :=
  joinSep (Char.ofNat 46) ((v4Octets v).map natToDec)

/-- One IPv4 octet: 1-3 decimal digits, no leading zero, at most 255
(Go's `parseIPv4` field rules). -/
def parseOctet (f : GoStr) : Option Nat :=
  if f = [] || 3 < f.length || !f.all isDigitC then Option.none
  else if 1 < f.length && f.headD (Char.ofNat 32) = Char.ofNat 48 then Option.none
  else
    let v := parseDecDigits f
    if v ≤ 255 then some v else Option.none

/-- Dotted-decimal IPv4 parser: exactly four octets. -/
def parseV4 (s : GoStr) : Option Nat :=
  match (splitOnChar (Char.ofNat 46) s).mapM parseOctet with
  | some os => if os.length = 4 then some (os.foldl (fun acc o => acc * 256 + o) 0) else Option.none
  | Option.none => Option.none

/-- The eight 16-bit groups of an IPv6 value, most significant first. -/
def v6Groups (v : Nat) : List Nat :=
  (List.range 8).map (fun i => v / 2 ^ (16 * (7 - i)) % 2 ^ 16)

/-- Length of the leading run of zero groups. -/
def zlen : List Nat → Nat
  | [] => 0
  | g :: t => if g = 0 then zlen t + 1 else 0

/-- Scan of `appendTo6` for the first longest run of at least two zero
groups: position `i` tracks the index of the current suffix. -/
def bestRunAux : Nat → List Nat → Option (Nat × Nat) → Option (Nat × Nat)
  | _, [], best => best
  | i, g :: t, best =>
    let l := zlen (g :: t)
    let keep :=
      match best with
      | some (_, bl) => decide (2 ≤ l) && decide (bl < l)
      | Option.none => decide (2 ≤ l)
    bestRunAux (i + 1) t (if keep then some (i, l) else best)

/-- First longest zero run of the group list. -/
def bestRun (gs : List Nat) : Option (Nat × Nat) := bestRunAux 0 gs Option.none

/-- `appendTo6`: hex groups joined by `:` with the chosen zero run
compressed to `::`. -/
def formatV6Groups (gs : List Nat) : GoStr :=
  match bestRun gs with
  | Option.none => joinSep (Char.ofNat 58) (gs.map natToHex)
  | some (zs, zl) =>
    joinSep (Char.ofNat 58) ((gs.take zs).map natToHex)
      ++ Char.ofNat 58 :: Char.ofNat 58 ::
        joinSep (Char.ofNat 58) ((gs.drop (zs + zl)).map natToHex)

/-- Whether a 128-bit value is an IPv4-mapped IPv6 address
(`Addr.Is4In6`: upper 96 bits equal to `0xffff`). -/
def is4in6 (v : Nat) : Bool := v / 2 ^ 32 == 0xffff

/-- `netip.Addr.String` (no-zone model): dotted decimal for IPv4,
`::ffff:` plus dotted decimal for IPv4-mapped, compressed hex groups
otherwise. -/
def formatAddr (a : Addr) : GoStr :=
  match a.fam with
  | .none => "invalid IP".toList
  | .v4 => formatV4 a.val
  | .v6 =>
    if is4in6 a.val then "::ffff:".toList ++ formatV4 (a.val % 2 ^ 32)
    else formatV6Groups (v6Groups a.val)

/-- First of `.`, `:` or `%` in the string (drives `ParseAddr`'s choice of
parser). -/
def firstSpecial : GoStr → Option Char
  | [] => Option.none
  | c :: t =>
    if c = Char.ofNat 46 ∨ c = Char.ofNat 58 ∨ c = Char.ofNat 37 then some c
    else firstSpecial t

/-- Split at the first `::`, if any. -/
def splitCC : GoStr → Option (GoStr × GoStr)
  | [] => Option.none
  | [_] => Option.none
  | a :: b :: rest =>
    if a = Char.ofNat 58 ∧ b = Char.ofNat 58 then some ([], rest)
    else (splitCC (b :: rest)).map (fun pr => (a :: pr.1, pr.2))

/-- One hex field of an IPv6 address: one to four hex digits. -/
def parseHexField (f : GoStr) : Option Nat :=
  if f = [] || 4 < f.length || !f.all isHexDigitC then Option.none
  else some (f.foldl (fun acc c => acc * 16 + hexVal c) 0)

/-- Parse `:`-separated IPv6 fields into 16-bit groups; a trailing
dotted-quad field contributes two groups when `allowV4`. -/
def parseFields (allowV4 : Bool) : List GoStr → Option (List Nat)
  | [] => some []
  | [f] =>
    if (Char.ofNat 46) ∈ f then
      if allowV4 then (parseV4 f).map (fun v => [v / 2 ^ 16, v % 2 ^ 16])
      else Option.none
    else (parseHexField f).map (fun g => [g])
  | f :: g :: rest =>
    match parseHexField f, parseFields allowV4 (g :: rest) with
    | some x, some xs => some (x :: xs)
    | _, _ => Option.none

/-- Recompose 16-bit groups into the 128-bit value. -/
def assembleGroups (gs : List Nat) : Nat :=
  gs.foldl (fun acc g => acc * 2 ^ 16 + g) 0

/-- IPv6 parser model: at most one `::`, hex fields, optional trailing
dotted quad, eight groups after expansion (at most seven with `::`). -/
def parseV6 (s : GoStr) : Option Nat :=
  match splitCC s with
  | some (l, r) =>
    if (splitCC r).isSome then Option.none
    else
      let gl? := if l = [] then some [] else parseFields false (splitOnChar (Char.ofNat 58) l)
      let gr? := if r = [] then some [] else parseFields true (splitOnChar (Char.ofNat 58) r)
      match gl?, gr? with
      | some gl, some gr =>
        if gl.length + gr.length ≤ 7 then
          some (assembleGroups (gl ++ List.replicate (8 - gl.length - gr.length) 0 ++ gr))
        else Option.none
      | _, _ => Option.none
  | Option.none =>
    match parseFields true (splitOnChar (Char.ofNat 58) s) with
    | some gs => if gs.length = 8 then some (assembleGroups gs) else Option.none
    | Option.none => Option.none

/-- `netip.ParseAddr` model (zoned addresses rejected, as they are by
`ParsePrefix` which is the only caller here): dotted decimal when a `.`
comes first, IPv6 when a `:` comes first. -/
def parseAddrM (s : GoStr) : Option Addr :=
  match firstSpecial s with
  | some c =>
    if c = Char.ofNat 46 then (parseV4 s).map (fun v => ⟨.v4, v⟩)
    else if c = Char.ofNat 58 then (parseV6 s).map (fun v => ⟨.v6, v⟩)
    else Option.none
  | Option.none => Option.none

/-- Index of the last occurrence of `c`. -/
def lastIdxOf (c : Char) (s : GoStr) : Option Nat :=
  match s.reverse.findIdx? (fun x => x = c) with
  | some j => some (s.length - 1 - j)
  | Option.none => Option.none

/-- The bits component after the slash: decimal digits, no sign, no
leading zero (`strconv.Atoi` plus `ParsePrefix`'s strictness; canonical
inputs are unaffected). -/
def parseBits (s : GoStr) : Option Nat :=
  if s = [] || !s.all isDigitC then Option.none
  else if 1 < s.length && s.headD (Char.ofNat 32) = Char.ofNat 48 then Option.none
  else some (parseDecDigits s)

/-- `netip.ParsePrefix` model: split at the last `/`, parse the address
(no zone) and the bit count, bounded by the family width. -/
def parsePrefixM (s : GoStr) : Option Prefix :=
  match lastIdxOf (Char.ofNat 47) s with
  | Option.none => Option.none
  | some i =>
    match parseAddrM (s.take i), parseBits (s.drop (i + 1)) with
    | some a, some b => if b ≤ a.bitLen then some ⟨a, (b : Int)⟩ else Option.none
    | _, _ => Option.none

/-- `netip.Prefix.String`. -/
def prefixToStr (p : Prefix) : GoStr :=
  if p.isValid then formatAddr p.ip ++ Char.ofNat 47 :: natToDec p.bits.toNat
  else "invalid Prefix".toList

/-- `PoolID`: address space plus `SubnetKey` (parent and optional child
subnet). -/
structure PoolID where
  addressSpace : GoStr
  subnet : Prefix
  childSubnet : Prefix
deriving DecidableEq, Repr

/-- `PoolID.String`: 3 components without a child, 5 with one. -/
def poolIDString (pid : PoolID) : GoStr :=
  if pid.childSubnet = zeroPrefix then
    pid.addressSpace ++ Char.ofNat 47 :: prefixToStr pid.subnet
  else
    pid.addressSpace ++ Char.ofNat 47 :: prefixToStr pid.subnet
      ++ Char.ofNat 47 :: prefixToStr pid.childSubnet

/-- `PoolIDFromString`: split on `/`, require 3 or 5 components, parse the
prefixes; `InvalidParameter` otherwise. -/
def poolIDFromString (s : GoStr) : Except Err PoolID :=
  if s = [] then .error .invalidParameter
  else
    let p := splitOnChar (Char.ofNat 47) s
    if p.length ≠ 3 ∧ p.length ≠ 5 then .error .invalidParameter
    else
      match parsePrefixM (p.getD 1 [] ++ Char.ofNat 47 :: p.getD 2 []) with
      | Option.none => .error .invalidParameter
      | some subnet =>
        if p.length = 5 then
          match parsePrefixM (p.getD 3 [] ++ Char.ofNat 47 :: p.getD 4 []) with
          | Option.none => .error .invalidParameter
          | some child => .ok ⟨p.getD 0 [], subnet, child⟩
        else .ok ⟨p.getD 0 [], subnet, zeroPrefix⟩

/-! ## Helper constructions and invariant predicates for the theorems -/

/-- IPv4 address from dotted components. -/
def ip4 (a b c d : Nat) : Addr := ⟨.v4, ((a * 256 + b) * 256 + c) * 256 + d⟩

/-- IPv4 prefix from dotted components and a bit count (unmasked, as
`netip.MustParsePrefix` keeps the address). -/
def p4 (a b c d : Nat) (bits : Int) : Prefix := ⟨ip4 a b c d, bits⟩

/-- Predefined network from dotted components. -/
def nts4 (a b c d : Nat) (bits sz : Int) : NetworkToSplit := ⟨p4 a b c d bits, sz⟩

/-- An address space with given predefined list and allocated list and an
empty subnets map (exactly how the picker unit tests build their
fixtures). -/
def mkSpace (pdf : List NetworkToSplit) (alloc : List Prefix) : AddrSpace :=
  { allocated := alloc, subnets := [], predefined := pdf }

/-- No two entries of the list overlap. -/
abbrev PairwiseNoOverlap (l : List Prefix) : Prop :=
  l.Pairwise (fun a b => a.overlaps b = false)

/-- The allocation-list invariant claimed by the spec: sorted by first
address (the masked base), with no equal entries. -/
def AllocSorted (l : List Prefix) : Prop :=
  l.Chain' (fun a b => addrCompare a.masked.ip b.masked.ip ≤ 0) ∧ l.Nodup

instance (l : List Prefix) : Decidable (AllocSorted l) :=
  inferInstanceAs (Decidable
    (l.Chain' (fun a b : Prefix => addrCompare a.masked.ip b.masked.ip ≤ 0) ∧ l.Nodup))

/-- Run a sequence of parent-only `allocateSubnet` requests, each failed
request leaving the state unchanged (as the operation guarantees). -/
def runReqSeq (st : AddrSpace) (reqs : List Prefix) : AddrSpace :=
  reqs.foldl (fun s r => (s.allocateSubnet r zeroPrefix).2) st

/-- Either the operation left the state `st` unchanged, or it succeeded
(the shape in which atomicity-on-error is proved). -/
def UnchOrOk {α : Type} (st : AddrSpace) (r : Except Err α × AddrSpace) : Prop :=
  r.2 = st ∨ ∃ a, r.1 = .ok a

/-! # Theorems -/

/-- The embedded picker reproduces the repository's own unit tests
(`TestDynamicPoolAllocation`), fixing the fixtures exactly as the tests
do. -/
theorem picker_matches_unit_tests :
    ((mkSpace [nts4 192 168 0 0 16 24] [p4 192 168 255 0 24]).allocatePredefinedPool []).1
        = .ok (p4 192 168 0 0 24) ∧
    ((mkSpace [nts4 10 0 0 0 8 24, nts4 192 168 0 0 16 24]
        [p4 10 0 0 0 8]).allocatePredefinedPool [p4 10 0 0 0 7]).1
        = .ok (p4 192 168 0 0 24) ∧
    ((mkSpace [nts4 192 168 0 0 16 24]
        [p4 192 168 0 0 24, p4 192 168 1 0 24, p4 192 168 2 3 30]).allocatePredefinedPool
        [p4 192 168 2 4 30, p4 192 168 3 0 30, p4 192 168 4 0 23]).1
        = .ok (p4 192 168 6 0 24) ∧
    ((mkSpace [nts4 172 16 0 0 15 16] [p4 172 16 0 0 16]).allocatePredefinedPool []).1
        = .ok (p4 172 17 0 0 16) ∧
    ((mkSpace [nts4 172 16 0 0 15 16]
        [p4 172 16 0 0 16, p4 172 17 0 0 17]).allocatePredefinedPool []).1
        = .error .noMoreSubnets ∧
    ((mkSpace [nts4 172 16 0 0 15 16, nts4 192 168 0 0 23 24]
        [p4 172 16 0 0 16, p4 172 17 128 0 17, p4 192 168 0 1 32,
          p4 192 168 1 0 24]).allocatePredefinedPool []).1
        = .error .noMoreSubnets := by
  refine ⟨?_, ?_, ?_, ?_, ?_, ?_⟩ <;> decide

/-- C1: the picker is not complete. Reachable counterexample: predefined
`[10.0.0.0/24 split /24, 10.1.0.0/24 split /24]` and one allocated pool
`10.0.0.0/8` covering both candidates. No /24 inside a candidate is free
(both candidates overlap the allocated /8), so the claim requires
`NoMoreSubnets`; the code walks past the first candidate, consumes the
only cursor entry, and hands out `10.1.0.0/24`, which lies inside the
existing allocation. The claim's own positive example
(`192.168.5.0/24`) is also checked to hold. -/
theorem C1_picker_incompleteness :
    newAddrSpace [nts4 10 0 0 0 24 24, nts4 10 1 0 0 24 24]
      = .ok (mkSpace [nts4 10 0 0 0 24 24, nts4 10 1 0 0 24 24] []) ∧
    ((mkSpace [nts4 10 0 0 0 24 24, nts4 10 1 0 0 24 24] []).allocateSubnet
        (p4 10 0 0 0 8) zeroPrefix).1 = .ok () ∧
    ((((mkSpace [nts4 10 0 0 0 24 24, nts4 10 1 0 0 24 24] []).allocateSubnet
        (p4 10 0 0 0 8) zeroPrefix).2.allocatePredefinedPool []).1
      = .ok (p4 10 1 0 0 24)) ∧
    (p4 10 0 0 0 8).overlaps (p4 10 0 0 0 24) = true ∧
    (p4 10 0 0 0 8).overlaps (p4 10 1 0 0 24) = true ∧
    ((mkSpace [nts4 192 168 0 0 16 24]
        [p4 192 168 0 0 24, p4 192 168 1 0 24, p4 192 168 2 0 23,
          p4 192 168 4 3 30]).allocatePredefinedPool []).1
      = .ok (p4 192 168 5 0 24) := by
  refine ⟨?_, ?_, ?_, ?_, ?_, ?_⟩ <;> decide

/-- C4: the sorted-allocation-list invariant is broken by the picker.
Reachable counterexample: allocate `192.168.255.0/24` (list sorted), then
request a predefined pool from `[192.168.0.0/16 split /24]`: the picker
returns `192.168.0.0/24` but inserts it at the already-advanced cursor
index, after `192.168.255.0/24`, leaving the list unsorted by first
address. -/
theorem C4_sorted_invariant_broken :
    ((mkSpace [nts4 192 168 0 0 16 24] []).allocateSubnet
        (p4 192 168 255 0 24) zeroPrefix).1 = .ok () ∧
    AllocSorted ((mkSpace [nts4 192 168 0 0 16 24] []).allocateSubnet
        (p4 192 168 255 0 24) zeroPrefix).2.allocated ∧
    ((((mkSpace [nts4 192 168 0 0 16 24] []).allocateSubnet
        (p4 192 168 255 0 24) zeroPrefix).2.allocatePredefinedPool []).1
      = .ok (p4 192 168 0 0 24)) ∧
    ((((mkSpace [nts4 192 168 0 0 16 24] []).allocateSubnet
        (p4 192 168 255 0 24) zeroPrefix).2.allocatePredefinedPool []).2.allocated
      = [p4 192 168 255 0 24, p4 192 168 0 0 24]) ∧
    ¬ AllocSorted ((((mkSpace [nts4 192 168 0 0 16 24] []).allocateSubnet
        (p4 192 168 255 0 24) zeroPrefix).2.allocatePredefinedPool []).2.allocated) := by
  refine ⟨by decide, ?_, by decide, by decide, ?_⟩
  · show AllocSorted [p4 192 168 255 0 24]
    exact ⟨List.chain'_singleton _, List.nodup_singleton _⟩
  · show ¬ AllocSorted [p4 192 168 255 0 24, p4 192 168 0 0 24]
    rintro ⟨hc, -⟩
    rw [List.chain'_cons] at hc
    exact absurd hc.1 (by decide)

/-! ### Atomicity lemmas (C5) -/

theorem unchOrOk_error {α : Type} {st : AddrSpace} {r : Except Err α × AddrSpace}
    (hu : UnchOrOk st r) {e : Err} (h : r.1 = .error e) : r.2 = st := by
  rcases hu with h2 | ⟨a, ha⟩
  · exact h2
  · rw [ha] at h
    exact absurd h (by simp)

theorem allocateSubnetL_unch (st : AddrSpace) (nw sub : Prefix) :
    UnchOrOk st (st.allocateSubnetL nw sub) := by
  unfold AddrSpace.allocateSubnetL
  split
  · split
    · left; rfl
    · right; exact ⟨_, rfl⟩
  · right; exact ⟨_, rfl⟩

theorem allocateSubnet_unch (st : AddrSpace) (nw sub : Prefix) :
    UnchOrOk st (st.allocateSubnet nw sub) := by
  unfold AddrSpace.allocateSubnet
  split
  · dsimp only
    split
    · left; rfl
    · exact allocateSubnetL_unch st nw sub
  · exact allocateSubnetL_unch st nw sub

theorem pickerTail_unch (st : AddrSpace) (dc : DC) (pdfID : Nat) (pO : Bool)
    (prev : Prefix) : UnchOrOk st (pickerTail st dc pdfID pO prev) := by
  unfold pickerTail
  repeat first
    | (left; rfl)
    | (right; exact ⟨_, rfl⟩)
    | split
    | dsimp only

theorem pickerLoop_unch (st : AddrSpace) :
    ∀ (fuel : Nat) (dc : DC) (pdfID : Nat) (pO : Bool) (prev : Prefix),
      UnchOrOk st (pickerLoop st fuel dc pdfID pO prev) := by
  intro fuel
  induction fuel with
  | zero => intro dc pdfID pO prev; left; rfl
  | succ f ih =>
    intro dc pdfID pO prev
    unfold pickerLoop
    repeat first
      | (left; rfl)
      | (right; exact ⟨_, rfl⟩)
      | exact pickerTail_unch _ _ _ _ _
      | exact ih _ _ _ _
      | split
      | dsimp only

theorem allocatePredefinedPool_unch (st : AddrSpace) (reserved : List Prefix) :
    UnchOrOk st (st.allocatePredefinedPool reserved) := by
  unfold AddrSpace.allocatePredefinedPool
  exact pickerLoop_unch st _ _ _ _ _

theorem releaseSubnet_unch (st : AddrSpace) (nw sub : Prefix) :
    UnchOrOk st (st.releaseSubnet nw sub) := by
  unfold AddrSpace.releaseSubnet
  repeat first
    | (left; rfl)
    | (right; exact ⟨_, rfl⟩)
    | split
    | dsimp only

theorem getAddress_error {nw : Prefix} {b : Bitmap} {pref : Addr}
    {sub : Prefix} {serial : Bool} {e : Err}
    (h : (getAddress nw b pref sub serial).1 = .error e) :
    (getAddress nw b pref sub serial).2 = b := by
  have : (getAddress nw b pref sub serial).2 = b ∨
      ∃ a, (getAddress nw b pref sub serial).1 = .ok a := by
    unfold getAddress
    repeat first
      | (left; rfl)
      | (right; exact ⟨_, rfl⟩)
      | split
      | dsimp only
  rcases this with h2 | ⟨a, ha⟩
  · exact h2
  · rw [ha] at h
    exact absurd h (by simp)

theorem msUpdate_self {m : List (Prefix × PoolData)} {k : Prefix} {p : PoolData}
    (h : msLookup m k = some p) :
    msUpdate m k (fun pd => { pd with addrs := p.addrs }) = m := by
  induction m with
  | nil => simp [msLookup] at h
  | cons e rest ih =>
    unfold msLookup at h ih
    unfold msUpdate
    by_cases hk : (e.1 == k) = true
    · have hk' : (fun x : Prefix × PoolData => x.1 == k) e = true := hk
      rw [List.find?_cons_of_pos rest hk'] at h
      simp only [Option.map_some'] at h
      injection h with h2
      rw [if_pos hk, ← h2]
    · have hk' : ¬(fun x : Prefix × PoolData => x.1 == k) e = true := hk
      rw [List.find?_cons_of_neg rest hk'] at h
      rw [if_neg hk]
      exact congrArg (e :: ·) (ih h)

theorem requestAddress_unch (st : AddrSpace) (nw sub : Prefix) (pref : Addr)
    (serial : Bool) : UnchOrOk st (st.requestAddress nw sub pref serial) := by
  unfold AddrSpace.requestAddress
  cases hms : msLookup st.subnets nw with
  | none => left; rfl
  | some p =>
    dsimp only
    split
    · left; rfl
    · split
      · left; rfl
      · cases hg : (getAddress nw p.addrs pref sub serial).1 with
        | ok o =>
          right
          exact ⟨_, rfl⟩
        | error e' =>
          left
          dsimp only
          rw [getAddress_error hg, msUpdate_self hms]

theorem releaseAddress_unch (st : AddrSpace) (nw sub : Prefix) (address : Addr) :
    UnchOrOk st (st.releaseAddress nw sub address) := by
  unfold AddrSpace.releaseAddress
  repeat first
    | (left; rfl)
    | (right; exact ⟨_, rfl⟩)
    | split
    | dsimp only

/-- C5: atomicity on error: every public address-space operation either
succeeds or returns an error with the address-space state (allocated
list, subnets map with its pool bitmaps and children) exactly as it was
before the call; in particular a failing picker run inserts nothing. -/
theorem C5_atomicity_on_error (st : AddrSpace) :
    (∀ (nw sub : Prefix) (e : Err),
      (st.allocateSubnet nw sub).1 = .error e → (st.allocateSubnet nw sub).2 = st) ∧
    (∀ (reserved : List Prefix) (e : Err),
      (st.allocatePredefinedPool reserved).1 = .error e →
      (st.allocatePredefinedPool reserved).2 = st) ∧
    (∀ (nw sub : Prefix) (e : Err),
      (st.releaseSubnet nw sub).1 = .error e → (st.releaseSubnet nw sub).2 = st) ∧
    (∀ (nw sub : Prefix) (pref : Addr) (serial : Bool) (e : Err),
      (st.requestAddress nw sub pref serial).1 = .error e →
      (st.requestAddress nw sub pref serial).2 = st) ∧
    (∀ (nw sub : Prefix) (address : Addr) (e : Err),
      (st.releaseAddress nw sub address).1 = .error e →
      (st.releaseAddress nw sub address).2 = st) :=
  ⟨fun nw sub _ h => unchOrOk_error (allocateSubnet_unch st nw sub) h,
   fun reserved _ h => unchOrOk_error (allocatePredefinedPool_unch st reserved) h,
   fun nw sub _ h => unchOrOk_error (releaseSubnet_unch st nw sub) h,
   fun nw sub pref serial _ h => unchOrOk_error (requestAddress_unch st nw sub pref serial) h,
   fun nw sub address _ h => unchOrOk_error (releaseAddress_unch st nw sub address) h⟩

/-- Witness for C5 at concrete failing calls: a parent-only request for an
overlapping pool fails with `PoolOverlap` and leaves the state unchanged,
and a picker run with no predefined networks fails with `NoMoreSubnets`
and leaves the state unchanged. -/
theorem C5_atomicity_on_error_witness :
    ((mkSpace [] [p4 10 0 0 0 8]).allocateSubnet (p4 10 1 0 0 16) zeroPrefix).2
      = mkSpace [] [p4 10 0 0 0 8] ∧
    ((mkSpace [] [p4 10 0 0 0 8]).allocatePredefinedPool []).2
      = mkSpace [] [p4 10 0 0 0 8] :=
  ⟨(C5_atomicity_on_error (mkSpace [] [p4 10 0 0 0 8])).1 (p4 10 1 0 0 16)
      zeroPrefix .poolOverlap (by decide),
   (C5_atomicity_on_error (mkSpace [] [p4 10 0 0 0 8])).2.1 [] .noMoreSubnets
      (by decide)⟩

/-! ### Non-overlap invariant (C2) -/

theorem beq_comm' {α : Type} [DecidableEq α] [BEq α] [LawfulBEq α] (a b : α) :
    (a == b) = (b == a) := by
  by_cases h : a = b
  · subst h; rfl
  · rw [beq_eq_false_iff_ne.mpr h, beq_eq_false_iff_ne.mpr (Ne.symm h)]

theorem valid_is4_fam_eq {a b : Addr} (ha : a.isValid = true) (hb : b.isValid = true)
    (h : a.is4 = b.is4) : a.fam = b.fam := by
  unfold Addr.isValid at ha hb
  unfold Addr.is4 at h
  cases hfa : a.fam <;> cases hfb : b.fam <;> simp_all

theorem overlaps_comm (p o : Prefix) : p.overlaps o = o.overlaps p := by
  unfold Prefix.overlaps
  by_cases hp : p.isValid = true <;> by_cases ho : o.isValid = true <;>
    simp only [hp, ho, Bool.not_true, Bool.not_false, Bool.false_or, Bool.or_true,
      Bool.true_or, Bool.or_false, if_true, if_false]
  by_cases heq : p = o
  · subst heq; rfl
  · rw [beq_eq_false_iff_ne.mpr heq, beq_eq_false_iff_ne.mpr (Ne.symm heq)]
    simp only [Bool.false_eq_true, if_false]
    by_cases h4 : p.ip.is4 = o.ip.is4
    · have hbne : (p.ip.is4 != o.ip.is4) = false := by simp [h4]
      have hbne' : (o.ip.is4 != p.ip.is4) = false := by simp [h4]
      rw [hbne, hbne']
      simp only [Bool.false_eq_true, if_false]
      have hw : p.ip.bitLen = o.ip.bitLen := by
        unfold Addr.bitLen
        rw [valid_is4_fam_eq ?hv1 ?hv2 h4]
        case hv1 =>
          unfold Prefix.isValid at hp
          simp only [Bool.and_eq_true] at hp
          exact hp.1
        case hv2 =>
          unfold Prefix.isValid at ho
          simp only [Bool.and_eq_true] at ho
          exact ho.1
      rw [min_comm, hw]
      split
      · rfl
      · exact beq_comm' _ _
    · have hbne : (p.ip.is4 != o.ip.is4) = true := by
        simp only [bne_iff_ne, ne_eq]; exact h4
      have hbne' : (o.ip.is4 != p.ip.is4) = true := by
        simp only [bne_iff_ne, ne_eq]; exact fun hh => h4 hh.symm
      rw [hbne, hbne']
      rfl

theorem mem_insertAllocated {x nw : Prefix} :
    ∀ {l : List Prefix}, x ∈ insertAllocated nw l → x = nw ∨ x ∈ l := by
  intro l
  induction l with
  | nil =>
    intro h
    unfold insertAllocated at h
    exact Or.inl (List.mem_singleton.mp h)
  | cons a rest ih =>
    intro h
    unfold insertAllocated at h
    split at h
    · exact (List.mem_cons.mp h).elim Or.inl Or.inr
    · rcases List.mem_cons.mp h with rfl | h'
      · exact Or.inr (List.mem_cons_self _ _)
      · rcases ih h' with h'' | h''
        · exact Or.inl h''
        · exact Or.inr (List.mem_cons_of_mem _ h'')

theorem pairwise_insertAllocated {nw : Prefix} :
    ∀ {l : List Prefix}, PairwiseNoOverlap l →
      (∀ a ∈ l, a.overlaps nw = false) →
      PairwiseNoOverlap (insertAllocated nw l) := by
  intro l
  induction l with
  | nil =>
    intro _ _
    exact List.pairwise_singleton _ _
  | cons a rest ih =>
    intro hl hno
    have hl' := List.pairwise_cons.mp hl
    unfold insertAllocated
    split
    · refine List.Pairwise.cons ?_ hl
      intro x hx
      rw [overlaps_comm]
      exact hno x hx
    · refine List.Pairwise.cons ?_
        (ih hl'.2 (fun b hb => hno b (List.mem_cons_of_mem a hb)))
      intro x hx
      rcases mem_insertAllocated hx with rfl | hx'
      · exact hno a (List.mem_cons_self a rest)
      · exact hl'.1 x hx'

theorem overlapsAny_false {st : AddrSpace} {nw : Prefix}
    (h : st.overlapsAny nw = false) : ∀ a ∈ st.allocated, a.overlaps nw = false := by
  unfold AddrSpace.overlapsAny at h
  intro a ha
  exact Bool.eq_false_iff.mpr (List.any_eq_false.mp h a ha)

theorem allocateSubnet_preserves_pairwise (st : AddrSpace) (r : Prefix)
    (h : PairwiseNoOverlap st.allocated) :
    PairwiseNoOverlap ((st.allocateSubnet r zeroPrefix).2).allocated := by
  unfold AddrSpace.allocateSubnet
  cases hms : msLookup st.subnets r with
  | some pool =>
    dsimp only
    rw [if_pos (Or.inl rfl)]
    exact h
  | none =>
    dsimp only
    unfold AddrSpace.allocateSubnetL
    rw [if_pos rfl]
    by_cases ho : st.overlapsAny r = true
    · rw [if_pos ho]
      exact h
    · have ho' : st.overlapsAny r = false := by
        rwa [Bool.not_eq_true] at ho
      rw [if_neg ho]
      unfold AddrSpace.allocatePool
      exact pairwise_insertAllocated h (overlapsAny_false ho')

/-- C2: starting from a fresh address space, after any sequence of
parent-only `allocateSubnet` requests (failed requests leave the state
unchanged, so any successful subsequence is covered), no two prefixes in
the allocated list overlap. -/
theorem C2_nonoverlap_invariant (predef : List NetworkToSplit) (st0 : AddrSpace)
    (h0 : newAddrSpace predef = .ok st0) (reqs : List Prefix) :
    PairwiseNoOverlap (runReqSeq st0 reqs).allocated := by
  have halloc : st0.allocated = [] := by
    unfold newAddrSpace at h0
    split at h0
    · cases h0
    · injection h0 with h0
      rw [← h0]
  have main : ∀ (rs : List Prefix) (st : AddrSpace), PairwiseNoOverlap st.allocated →
      PairwiseNoOverlap (runReqSeq st rs).allocated := by
    intro rs
    induction rs with
    | nil => intro st h; exact h
    | cons r rest ih =>
      intro st h
      exact ih _ (allocateSubnet_preserves_pairwise st r h)
  refine main reqs st0 ?_
  rw [halloc]
  exact List.Pairwise.nil

/-- Witness for C2: three concrete requests (the second a duplicate that
fails, the third disjoint) from a fresh space with no predefined pools. -/
theorem C2_nonoverlap_invariant_witness :
    PairwiseNoOverlap (runReqSeq (mkSpace [] [])
      [p4 10 0 0 0 8, p4 10 0 0 0 8, p4 192 168 0 0 16]).allocated :=
  C2_nonoverlap_invariant [] (mkSpace [] []) (by decide)
    [p4 10 0 0 0 8, p4 10 0 0 0 8, p4 192 168 0 0 16]

/-! ### Overlap-check asymmetry (C3) -/

theorem msLookup_cons_none {e : Prefix × PoolData} {rest : List (Prefix × PoolData)}
    {k : Prefix} (h : msLookup (e :: rest) k = Option.none) :
    (e.1 == k) = false ∧ msLookup rest k = Option.none := by
  by_cases hk : (e.1 == k) = true
  · exfalso
    have hk' : (fun x : Prefix × PoolData => x.1 == k) e = true := hk
    unfold msLookup at h
    rw [List.find?_cons_of_pos rest hk'] at h
    simp at h
  · have hk' : ¬(fun x : Prefix × PoolData => x.1 == k) e = true := hk
    refine ⟨by simpa using hk, ?_⟩
    unfold msLookup at h ⊢
    rwa [List.find?_cons_of_neg rest hk'] at h

theorem msInsert_absent {k : Prefix} {v : PoolData} :
    ∀ {m : List (Prefix × PoolData)}, msLookup m k = Option.none →
      msInsert m k v = m ++ [(k, v)] := by
  intro m
  induction m with
  | nil => intro _; rfl
  | cons e rest ih =>
    intro h
    rcases msLookup_cons_none h with ⟨hk, hrest⟩
    unfold msInsert
    rw [hk]
    simp only [Bool.false_eq_true, if_false, List.cons_append, List.cons.injEq, true_and]
    exact ih hrest

theorem msUpdate_append {k : Prefix} {v : PoolData} {f : PoolData → PoolData} :
    ∀ {m : List (Prefix × PoolData)}, msLookup m k = Option.none →
      msUpdate (m ++ [(k, v)]) k f = m ++ [(k, f v)] := by
  intro m
  induction m with
  | nil =>
    intro _
    simp [msUpdate]
  | cons e rest ih =>
    intro h
    rcases msLookup_cons_none h with ⟨hk, hrest⟩
    rw [List.cons_append, List.cons_append]
    unfold msUpdate
    rw [hk]
    simp only [Bool.false_eq_true, if_false, List.cons.injEq, true_and]
    exact ih hrest

theorem msLookup_append {k : Prefix} {v : PoolData} :
    ∀ {m : List (Prefix × PoolData)}, msLookup m k = Option.none →
      msLookup (m ++ [(k, v)]) k = some v := by
  intro m
  induction m with
  | nil =>
    intro _
    simp [msLookup]
  | cons e rest ih =>
    intro h
    rcases msLookup_cons_none h with ⟨hk, hrest⟩
    have hk' : ¬(fun x : Prefix × PoolData => x.1 == k) e = true := by simp [hk]
    rw [List.cons_append]
    unfold msLookup
    rw [List.find?_cons_of_neg (rest ++ [(k, v)]) hk']
    exact ih hrest

/-- C3: the deliberate overlap-check asymmetry of request-pool. For a
parent `P` that overlaps an existing allocation but is not itself
allocated: the child-less request fails with `PoolOverlap` leaving the
state unchanged, while the same request with a child succeeds, allocates
`P` with auto-release set and inserts the child. If `P` is already
allocated, a request with a new child merely adds that child. -/
theorem C3_overlap_check_asymmetry (st : AddrSpace) (P child : Prefix)
    (hchild : child ≠ zeroPrefix) :
    (msLookup st.subnets P = Option.none → st.overlapsAny P = true →
      st.allocateSubnet P zeroPrefix = (.error .poolOverlap, st) ∧
      (st.allocateSubnet P child).1 = .ok () ∧
      (st.allocateSubnet P child).2.allocated = insertAllocated P st.allocated ∧
      msLookup (st.allocateSubnet P child).2.subnets P
        = some { addrs := (newPoolData P).addrs, children := [child],
                 autoRelease := true }) ∧
    (∀ pool, msLookup st.subnets P = some pool → child ∉ pool.children →
      st.allocateSubnet P child
        = (.ok (), { st with subnets := (msUpdate st.subnets P
            (fun pd => { pd with children := addChild pd.children child })) })) := by
  constructor
  · intro hnone hov
    refine ⟨?_, ?_, ?_, ?_⟩
    · unfold AddrSpace.allocateSubnet
      rw [hnone]
      unfold AddrSpace.allocateSubnetL
      rw [if_pos rfl, if_pos hov]
    · unfold AddrSpace.allocateSubnet
      rw [hnone]
      unfold AddrSpace.allocateSubnetL
      rw [if_neg hchild]
    · unfold AddrSpace.allocateSubnet
      rw [hnone]
      unfold AddrSpace.allocateSubnetL
      rw [if_neg hchild]
      rw [hnone]
      rfl
    · unfold AddrSpace.allocateSubnet
      rw [hnone]
      unfold AddrSpace.allocateSubnetL
      rw [if_neg hchild]
      rw [hnone]
      show msLookup (msUpdate (msUpdate (msInsert st.subnets P (newPoolData P)) P
          (fun pd => { pd with autoRelease := true })) P
          (fun pd => { pd with children := addChild pd.children child })) P
        = some { addrs := (newPoolData P).addrs, children := [child],
                 autoRelease := true }
      rw [msInsert_absent hnone, msUpdate_append hnone, msUpdate_append hnone,
        msLookup_append hnone]
      simp [addChild, newPoolData]
  · intro pool hsome hnotin
    unfold AddrSpace.allocateSubnet
    rw [hsome]
    dsimp only
    rw [if_neg ?hcond]
    case hcond =>
      rintro (h | ⟨-, h⟩)
      · exact hchild h
      · exact hnotin h
    unfold AddrSpace.allocateSubnetL
    rw [if_neg hchild]
    dsimp only
    rw [hsome]

/-- Witness for C3: `10.0.0.0/16` overlaps the allocated `10.0.0.0/30`
but is not itself allocated; with child `10.0.1.0/24` the request
succeeds, without a child it fails with `PoolOverlap`; re-requesting the
allocated `10.0.0.0/30` with a new child merely adds it. -/
theorem C3_overlap_check_asymmetry_witness :
    ((mkSpace [] [p4 10 0 0 0 30]).allocateSubnet (p4 10 0 0 0 16) zeroPrefix
      = (.error .poolOverlap, mkSpace [] [p4 10 0 0 0 30])) ∧
    (((mkSpace [] [p4 10 0 0 0 30]).allocateSubnet (p4 10 0 0 0 16)
        (p4 10 0 1 0 24)).1 = .ok ()) ∧
    (({ mkSpace [] [p4 10 0 0 0 30] with
          subnets := [(p4 10 0 0 0 30, newPoolData (p4 10 0 0 0 30))] }
        : AddrSpace).allocateSubnet (p4 10 0 0 0 30) (p4 10 0 0 0 31)
      = (.ok (), { mkSpace [] [p4 10 0 0 0 30] with
          subnets := (msUpdate [(p4 10 0 0 0 30, newPoolData (p4 10 0 0 0 30))]
            (p4 10 0 0 0 30)
            (fun pd => { pd with
              children := addChild pd.children (p4 10 0 0 0 31) })) })) :=
  ⟨((C3_overlap_check_asymmetry (mkSpace [] [p4 10 0 0 0 30]) (p4 10 0 0 0 16)
      (p4 10 0 1 0 24) (by decide)).1 (by decide) (by decide)).1,
   ((C3_overlap_check_asymmetry (mkSpace [] [p4 10 0 0 0 30]) (p4 10 0 0 0 16)
      (p4 10 0 1 0 24) (by decide)).1 (by decide) (by decide)).2.1,
   (C3_overlap_check_asymmetry
      ({ mkSpace [] [p4 10 0 0 0 30] with
          subnets := [(p4 10 0 0 0 30, newPoolData (p4 10 0 0 0 30))] })
      (p4 10 0 0 0 30) (p4 10 0 0 0 31) (by decide)).2
      (newPoolData (p4 10 0 0 0 30)) (by decide) (by decide)⟩

/-! ### Address-operation errors (C6) -/

/-- C6 counterexample: with the parent pool known, a request that names an
unknown child *and* a preferred address outside the parent fails with
`IPOutOfRange`, not `NotFound` — the preferred-address check runs before
the child check, contradicting the claim that the call fails with
`NotFound` whenever the specified child is unknown. -/
theorem C6_counterexample :
    msLookup [(p4 10 0 0 0 30, newPoolData (p4 10 0 0 0 30))] (p4 10 0 0 0 30)
      = some (newPoolData (p4 10 0 0 0 30)) ∧
    p4 10 0 0 0 31 ∉ (newPoolData (p4 10 0 0 0 30)).children ∧
    p4 10 0 0 0 31 ≠ zeroPrefix ∧
    (({ allocated := [p4 10 0 0 0 30],
        subnets := [(p4 10 0 0 0 30, newPoolData (p4 10 0 0 0 30))],
        predefined := [] } : AddrSpace).requestAddress (p4 10 0 0 0 30)
        (p4 10 0 0 0 31) (ip4 11 0 0 1) false).1 = .error .ipOutOfRange ∧
    Err.ipOutOfRange ≠ Err.notFound := by
  refine ⟨by decide, by decide, by decide, by decide, by decide⟩

/-- C6 amended: `requestAddress` fails with `NotFound` for an unknown
parent; then with `IPOutOfRange` for a preferred address outside the
parent; then with `NotFound` for an unknown child (so a request with both
an out-of-range preferred address and an unknown child gets
`IPOutOfRange`). `releaseAddress` fails with `NotFound` for an unknown
pool or child, then `InvalidParameter` for an invalid address, then
`IPOutOfRange` for an address outside the parent. Every such failure
returns the address space — including every pool bitmap — unchanged. -/
theorem C6_amended_address_errors (st : AddrSpace) (nw sub : Prefix)
    (pref address : Addr) (serial : Bool) :
    (msLookup st.subnets nw = Option.none →
      st.requestAddress nw sub pref serial = (.error .notFound, st) ∧
      st.releaseAddress nw sub address = (.error .notFound, st)) ∧
    (∀ p, msLookup st.subnets nw = some p →
      (pref ≠ zeroAddr → nw.containsAddr pref = false →
        st.requestAddress nw sub pref serial = (.error .ipOutOfRange, st)) ∧
      ((pref = zeroAddr ∨ nw.containsAddr pref = true) →
        sub ≠ zeroPrefix → sub ∉ p.children →
        st.requestAddress nw sub pref serial = (.error .notFound, st)) ∧
      (sub ≠ zeroPrefix → sub ∉ p.children →
        st.releaseAddress nw sub address = (.error .notFound, st)) ∧
      ((sub = zeroPrefix ∨ sub ∈ p.children) → address.isValid = false →
        st.releaseAddress nw sub address = (.error .invalidParameter, st)) ∧
      ((sub = zeroPrefix ∨ sub ∈ p.children) → address.isValid = true →
        nw.containsAddr address = false →
        st.releaseAddress nw sub address = (.error .ipOutOfRange, st))) := by
  constructor
  · intro hnone
    constructor
    · unfold AddrSpace.requestAddress
      rw [hnone]
    · unfold AddrSpace.releaseAddress
      rw [hnone]
  · intro p hsome
    have hsub_of : ∀ (hs : sub = zeroPrefix ∨ sub ∈ p.children),
        ¬(sub ≠ zeroPrefix ∧ sub ∉ p.children) := by
      rintro (hz | hc) ⟨h1, h2⟩
      · exact h1 hz
      · exact h2 hc
    refine ⟨?_, ?_, ?_, ?_, ?_⟩
    · intro h1 h2
      unfold AddrSpace.requestAddress
      rw [hsome]
      dsimp only
      rw [if_pos ⟨h1, by rw [h2]; exact Bool.false_ne_true⟩]
    · intro hp h1 h2
      unfold AddrSpace.requestAddress
      rw [hsome]
      dsimp only
      rw [if_neg ?hnp, if_pos ⟨h1, h2⟩]
      case hnp =>
        rintro ⟨hp1, hp2⟩
        rcases hp with hz | hc
        · exact hp1 hz
        · exact hp2 hc
    · intro h1 h2
      unfold AddrSpace.releaseAddress
      rw [hsome]
      dsimp only
      rw [if_pos ⟨h1, h2⟩]
    · intro hs hinv
      unfold AddrSpace.releaseAddress
      rw [hsome]
      dsimp only
      rw [if_neg (hsub_of hs), if_pos (by rw [hinv]; exact Bool.false_ne_true)]
    · intro hs hval hcont
      unfold AddrSpace.releaseAddress
      rw [hsome]
      dsimp only
      rw [if_neg (hsub_of hs), if_neg (by rw [hval]; exact fun h => h rfl),
        if_pos (by rw [hcont]; exact Bool.false_ne_true)]

/-- Witness for C6 amended: concrete failing calls on a one-pool space. -/
theorem C6_amended_address_errors_witness :
    (({ allocated := [p4 10 0 0 0 30],
        subnets := [(p4 10 0 0 0 30, newPoolData (p4 10 0 0 0 30))],
        predefined := [] } : AddrSpace).requestAddress (p4 10 0 0 0 30)
        (p4 10 0 0 0 31) (ip4 11 0 0 1) false
      = (.error .ipOutOfRange,
        { allocated := [p4 10 0 0 0 30],
          subnets := [(p4 10 0 0 0 30, newPoolData (p4 10 0 0 0 30))],
          predefined := [] })) ∧
    (({ allocated := [p4 10 0 0 0 30],
        subnets := [(p4 10 0 0 0 30, newPoolData (p4 10 0 0 0 30))],
        predefined := [] } : AddrSpace).releaseAddress (p4 10 0 0 0 30)
        zeroPrefix zeroAddr
      = (.error .invalidParameter,
        { allocated := [p4 10 0 0 0 30],
          subnets := [(p4 10 0 0 0 30, newPoolData (p4 10 0 0 0 30))],
          predefined := [] })) ∧
    (({ allocated := [p4 10 0 0 0 30],
        subnets := [(p4 10 0 0 0 30, newPoolData (p4 10 0 0 0 30))],
        predefined := [] } : AddrSpace).requestAddress (p4 172 16 0 0 16)
        zeroPrefix zeroAddr true
      = (.error .notFound,
        { allocated := [p4 10 0 0 0 30],
          subnets := [(p4 10 0 0 0 30, newPoolData (p4 10 0 0 0 30))],
          predefined := [] })) :=
  ⟨((C6_amended_address_errors
      { allocated := [p4 10 0 0 0 30],
        subnets := [(p4 10 0 0 0 30, newPoolData (p4 10 0 0 0 30))],
        predefined := [] } (p4 10 0 0 0 30) (p4 10 0 0 0 31) (ip4 11 0 0 1)
      zeroAddr false).2 (newPoolData (p4 10 0 0 0 30)) (by decide)).1
      (by decide) (by decide),
   ((C6_amended_address_errors
      { allocated := [p4 10 0 0 0 30],
        subnets := [(p4 10 0 0 0 30, newPoolData (p4 10 0 0 0 30))],
        predefined := [] } (p4 10 0 0 0 30) zeroPrefix zeroAddr
      zeroAddr false).2 (newPoolData (p4 10 0 0 0 30)) (by decide)).2.2.2.1
      (Or.inl rfl) (by decide),
   ((C6_amended_address_errors
      { allocated := [p4 10 0 0 0 30],
        subnets := [(p4 10 0 0 0 30, newPoolData (p4 10 0 0 0 30))],
        predefined := [] } (p4 172 16 0 0 16) zeroPrefix zeroAddr
      zeroAddr true).1 (by decide)).1⟩

/-! ### Distance arithmetic (C9) -/

theorem maskVal_le (w b v : Nat) : maskVal w b v ≤ v :=
  Nat.div_mul_le_self v _

theorem maskVal_mono {w b v1 v2 : Nat} (h : v1 ≤ v2) :
    maskVal w b v1 ≤ maskVal w b v2 :=
  Nat.mul_le_mul_right _ (Nat.div_le_div_right h)

/-- C9: `Distance` returns 0 whenever either prefix is invalid, the
families differ, or `p2`'s address is below `p1`'s; on well-formed
same-family inputs with `p1 ≤ p2` and a size within the family width it
returns the number of size-`sz` subnets between the two prefixes masked to
`sz` — the masked difference divided by the subnet size — saturated at
`2^64 - 1`; and `Distance(10.0.0.0/24, 10.0.10.0/24, 24) = 10`. -/
theorem C9_distance_spec (p1 p2 : Prefix) (sz : Int) :
    ((p1.isValid = false ∨ p2.isValid = false ∨ p1.ip.is4 ≠ p2.ip.is4 ∨
        p2.ip.less p1.ip = true) → distance p1 p2 sz = 0) ∧
    (p1.WF → p2.WF → p1.ip.fam = p2.ip.fam → p2.ip.less p1.ip = false →
      0 ≤ sz → sz ≤ (p1.ip.bitLen : Int) →
      distance p1 p2 sz
        = min ((maskVal p1.ip.bitLen sz.toNat p2.ip.val
              - maskVal p1.ip.bitLen sz.toNat p1.ip.val)
                / 2 ^ (p1.ip.bitLen - sz.toNat))
            (2 ^ 64 - 1)) ∧
    distance (p4 10 0 0 0 24) (p4 10 0 10 0 24) 24 = 10 := by
  refine ⟨?_, ?_, by decide⟩
  · intro h
    unfold distance
    have hcond : (!p1.isValid || !p2.isValid || (p1.ip.is4 != p2.ip.is4)
        || p2.ip.less p1.ip) = true := by
      rcases h with h | h | h | h <;> simp [h, bne_iff_ne]
    rw [if_pos hcond]
  · intro hwf1 hwf2 hfam hless h0 hsz
    rcases hwf1 with ⟨hf1, hv1, hb1, hb1'⟩
    rcases hwf2 with ⟨hf2, hv2, hb2, hb2'⟩
    have hval1 : p1.isValid = true := by
      unfold Prefix.isValid Addr.isValid
      simp [hf1, hb1]
    have hval2 : p2.isValid = true := by
      unfold Prefix.isValid Addr.isValid
      simp [hf2, hb2]
    have his4 : p1.ip.is4 = p2.ip.is4 := by
      unfold Addr.is4
      rw [hfam]
    unfold distance
    rw [if_neg ?hne]
    case hne =>
      intro hc
      simp only [hval1, hval2, his4, bne_self_eq_false, hless, Bool.not_true,
        Bool.false_or, Bool.or_false] at hc
      exact Bool.false_ne_true hc
    have hw2 : p2.ip.bitLen = p1.ip.bitLen := by
      unfold Addr.bitLen
      rw [hfam]
    have hq1 : (prefixFrom p1.ip sz).masked = ⟨p1.ip.maskTo sz.toNat, sz⟩ := by
      unfold prefixFrom
      rw [if_pos ?c1]
      case c1 =>
        simp only [Bool.and_eq_true, decide_eq_true_eq]
        refine ⟨⟨?_, h0⟩, hsz⟩
        unfold Addr.isValid
        simp [hf1]
      unfold Prefix.masked
      rw [if_pos ?c2]
      case c2 =>
        simp only [Bool.and_eq_true, decide_eq_true_eq]
        constructor
        · unfold Prefix.isValid Addr.isValid
          simp [hf1, h0]
        · exact hsz
    have hq2 : (prefixFrom p2.ip sz).masked = ⟨p2.ip.maskTo sz.toNat, sz⟩ := by
      unfold prefixFrom
      rw [if_pos ?c1]
      case c1 =>
        simp only [Bool.and_eq_true, decide_eq_true_eq]
        refine ⟨⟨?_, h0⟩, by rw [hw2]; exact hsz⟩
        unfold Addr.isValid
        simp [hf2]
      unfold Prefix.masked
      rw [if_pos ?c2]
      case c2 =>
        simp only [Bool.and_eq_true, decide_eq_true_eq]
        constructor
        · unfold Prefix.isValid Addr.isValid
          simp [hf2, h0]
        · rw [hw2]
          exact hsz
    rw [hq1, hq2]
    have hle : p1.ip.val ≤ p2.ip.val := by
      unfold Addr.less addrCompare at hless
      by_cases hlt : p2.ip.val < p1.ip.val
      · exfalso
        rw [hw2] at hless
        simp only [lt_irrefl, if_false, if_neg (lt_irrefl _)] at hless
        rw [if_pos hlt] at hless
        simp at hless
      · omega
    have hmle : maskVal p1.ip.bitLen sz.toNat p1.ip.val
        ≤ maskVal p1.ip.bitLen sz.toNat p2.ip.val := maskVal_mono hle
    have hm2v : maskVal p1.ip.bitLen sz.toNat p2.ip.val ≤ p2.ip.val :=
      maskVal_le _ _ _
    unfold Addr.bitLen at hmle hm2v
    unfold Addr.maskTo subAddr Addr.is4 Addr.bitLen sat64
    dsimp only
    have hwidth : p2.ip.fam.width = p1.ip.fam.width := by rw [hfam]
    rw [hwidth]
    have hgu : goUint ((p1.ip.fam.width : Int) - sz) = p1.ip.fam.width - sz.toNat := by
      unfold Addr.bitLen at hsz
      unfold goUint
      rw [if_pos (by omega)]
      omega
    rw [hgu, Nat.shiftRight_eq_div_pow]
    cases hfc : p1.ip.fam with
    | none => exact absurd hfc hf1
    | v4 =>
      have hfc2 : p2.ip.fam = Fam.v4 := hfam ▸ hfc
      rw [if_pos (by simp [hfc2])]
      rw [hfc] at hmle hm2v
      simp only [Fam.width] at hmle hm2v ⊢
      have hvv : p2.ip.val < 2 ^ 32 := by
        have := hv2
        unfold Addr.WF at this
        rw [hfc2] at this
        simpa [Fam.width] using this
      congr 2
      have h32 : (2 : Nat) ^ (32 : Nat) = 4294967296 := by norm_num
      rw [h32] at hvv ⊢
      omega
    | v6 =>
      have hfc2 : p2.ip.fam = Fam.v6 := hfam ▸ hfc
      rw [if_neg (by simp [hfc2])]
      rw [hfc] at hmle hm2v
      simp only [Fam.width] at hmle hm2v ⊢
      have hvv : p2.ip.val < 2 ^ 128 := by
        have := hv2
        unfold Addr.WF at this
        rw [hfc2] at this
        simpa [Fam.width] using this
      congr 2
      have h128 : (2 : Nat) ^ (128 : Nat) = 340282366920938463463374607431768211456 := by
        norm_num
      rw [h128] at hvv ⊢
      omega

/-- Witness for C9 at a concrete valid input (`10.0.0.0/16` to
`10.20.0.0/16` in `/24` steps). -/
theorem C9_distance_spec_witness :
    distance (p4 10 0 0 0 16) (p4 10 20 0 0 16) 24
      = min ((maskVal 32 24 (ip4 10 20 0 0).val - maskVal 32 24 (ip4 10 0 0 0).val)
          / 2 ^ (32 - 24)) (2 ^ 64 - 1) :=
  (C9_distance_spec (p4 10 0 0 0 16) (p4 10 20 0 0 16) 24).2.1
    (by decide) (by decide) (by decide) (by decide) (by decide) (by decide)

/-! ### Shuffler lemmas (C7, C8) -/

theorem pmLookup_delete_ne {k k' : Nat} (h : k' ≠ k) :
    ∀ {m : List (Nat × Nat)}, pmLookup (pmDelete m k) k' = pmLookup m k' := by
  intro m
  induction m with
  | nil => rfl
  | cons e rest ih =>
    unfold pmDelete at ih ⊢
    unfold pmLookup at ih ⊢
    by_cases he : e.1 = k
    · rw [List.filter_cons_of_neg (by simp [he])]
      have hne : ¬(fun x : Nat × Nat => x.1 == k') e = true := by
        simp [he, Ne.symm h]
      rw [List.find?_cons_of_neg rest hne]
      exact ih
    · rw [List.filter_cons_of_pos (by simp [he])]
      by_cases hp : e.1 = k'
      · have hpe : (fun x : Nat × Nat => x.1 == k') e = true := by simp [hp]
        rw [List.find?_cons_of_pos (List.filter (fun e => decide (e.1 ≠ k)) rest) hpe,
          List.find?_cons_of_pos rest hpe]
      · have hpe : ¬(fun x : Nat × Nat => x.1 == k') e = true := by simp [hp]
        rw [List.find?_cons_of_neg (List.filter (fun e => decide (e.1 ≠ k)) rest) hpe,
          List.find?_cons_of_neg rest hpe]
        exact ih

theorem pmLookup_insert_self (m : List (Nat × Nat)) (k v : Nat) :
    pmLookup (pmInsert m k v) k = some v := by
  unfold pmInsert pmLookup
  rw [List.find?_cons_of_pos _ (by simp)]
  rfl

theorem pmLookup_insert_ne {m : List (Nat × Nat)} {k v k' : Nat} (h : k' ≠ k) :
    pmLookup (pmInsert m k v) k' = pmLookup m k' := by
  unfold pmInsert
  show pmLookup ((k, v) :: pmDelete m k) k' = pmLookup m k'
  unfold pmLookup
  rw [List.find?_cons_of_neg _ (by simp [Ne.symm h])]
  exact pmLookup_delete_ne h

theorem atPos_insert_self (m : List (Nat × Nat)) (k v : Nat) :
    atPosM (pmInsert m k v) k = v := by
  unfold atPosM
  rw [pmLookup_insert_self]

theorem atPos_insert_ne {m : List (Nat × Nat)} {k v k' : Nat} (h : k' ≠ k) :
    atPosM (pmInsert m k v) k' = atPosM m k' := by
  unfold atPosM
  rw [pmLookup_insert_ne h]

theorem atPos_delete_ne {m : List (Nat × Nat)} {k k' : Nat} (h : k' ≠ k) :
    atPosM (pmDelete m k) k' = atPosM m k' := by
  unfold atPosM
  rw [pmLookup_delete_ne h]

theorem pick_i {s : Shuffler} (hi : 0 < s.i) : (pickRandom s).2.i = s.i - 1 := by
  unfold pickRandom
  rw [if_neg (Nat.pos_iff_ne_zero.mp hi)]

theorem pick_k {s : Shuffler} (hi : 0 < s.i) : (pickRandom s).2.k = s.k + 1 := by
  unfold pickRandom
  rw [if_neg (Nat.pos_iff_ne_zero.mp hi)]

theorem pick_rnd {s : Shuffler} (hi : 0 < s.i) : (pickRandom s).2.rnd = s.rnd := by
  unfold pickRandom
  rw [if_neg (Nat.pos_iff_ne_zero.mp hi)]

theorem pick_val {s : Shuffler} (hi : 0 < s.i) :
    (pickRandom s).1 = (atPosM s.permuts (s.rnd s.k % s.i), true) := by
  unfold pickRandom
  rw [if_neg (Nat.pos_iff_ne_zero.mp hi)]

theorem pick_permuts {s : Shuffler} (hi : 0 < s.i) :
    (pickRandom s).2.permuts
      = pmDelete (pmInsert s.permuts (s.rnd s.k % s.i)
          (atPosM s.permuts (s.i - 1))) s.i := by
  unfold pickRandom
  rw [if_neg (Nat.pos_iff_ne_zero.mp hi)]

theorem map_range_congr {f g : Nat → Nat} {n : Nat} (h : ∀ p < n, f p = g p) :
    (List.range n).map f = (List.range n).map g := by
  apply List.ext_getElem
  · simp
  · intro i h1 h2
    simp only [List.getElem_map, List.getElem_range]
    exact h i (by simpa using h1)

theorem append_perm_set {α : Type} :
    ∀ (l : List α) (x : α) (p : Nat) (hp : p < l.length),
      l ++ [x] ~ l.get ⟨p, hp⟩ :: l.set p x := by
  intro l
  induction l with
  | nil => intro x p hp; exact absurd hp (by simp)
  | cons a t ih =>
    intro x p hp
    cases p with
    | zero =>
      exact List.Perm.cons a (List.perm_append_singleton x t)
    | succ q =>
      have hq : q < t.length := by simpa using hp
      calc a :: t ++ [x] = a :: (t ++ [x]) := rfl
        _ ~ a :: (t.get ⟨q, hq⟩ :: t.set q x) := List.Perm.cons a (ih x q hq)
        _ ~ t.get ⟨q, hq⟩ :: a :: t.set q x := List.Perm.swap _ _ _

theorem window_pick_perm (s : Shuffler) (hi : 0 < s.i) :
    window s ~ (pickRandom s).1.1 :: window (pickRandom s).2 := by
  set pos := s.rnd s.k % s.i with hposdef
  have hpos : pos < s.i := Nat.mod_lt _ hi
  have hval : (pickRandom s).1.1 = atPosM s.permuts pos := by
    rw [pick_val hi]
  have hwin2 : window (pickRandom s).2
      = (List.range (s.i - 1)).map (atPosM (pickRandom s).2.permuts) := by
    unfold window
    rw [pick_i hi]
  have hagree : ∀ p < s.i - 1, p ≠ pos →
      atPosM (pickRandom s).2.permuts p = atPosM s.permuts p := by
    intro p hp hne
    rw [pick_permuts hi, atPos_delete_ne (by omega), atPos_insert_ne hne]
  have hatpos : pos < s.i - 1 →
      atPosM (pickRandom s).2.permuts pos = atPosM s.permuts (s.i - 1) := by
    intro hlt
    rw [pick_permuts hi, atPos_delete_ne (by omega), atPos_insert_self]
  have hrange : window s
      = (List.range (s.i - 1)).map (atPosM s.permuts)
        ++ [atPosM s.permuts (s.i - 1)] := by
    unfold window
    have : s.i = (s.i - 1) + 1 := by omega
    rw [this, List.range_succ, List.map_append]
    rfl
  by_cases htop : pos = s.i - 1
  · have hw2 : window (pickRandom s).2 = (List.range (s.i - 1)).map (atPosM s.permuts) := by
      rw [hwin2]
      exact map_range_congr (fun p hp => hagree p hp (by omega))
    rw [hrange, hw2, hval, htop]
    exact List.perm_append_singleton _ _
  · have hlt : pos < s.i - 1 := by omega
    have hw2 : window (pickRandom s).2
        = ((List.range (s.i - 1)).map (atPosM s.permuts)).set pos
            (atPosM s.permuts (s.i - 1)) := by
      rw [hwin2]
      apply List.ext_getElem
      · simp
      · intro j h1 h2
        have hj : j < s.i - 1 := by simpa using h1
        by_cases hjp : j = pos
        · subst hjp
          rw [List.getElem_set_self]
          · simp only [List.getElem_map, List.getElem_range]
            exact hatpos hlt
        · rw [List.getElem_set_ne (fun hh => hjp hh.symm)]
          simp only [List.getElem_map, List.getElem_range]
          exact hagree j hj hjp
    have hget : ((List.range (s.i - 1)).map (atPosM s.permuts)).get
        ⟨pos, by simpa using hlt⟩ = atPosM s.permuts pos := by
      simp [List.get_eq_getElem]
    rw [hrange, hw2, hval, ← hget]
    exact append_perm_set _ _ pos (by simpa using hlt)

/-- C8 counterexample: with `imax = 2` and the PRNG stream constantly 0,
the fresh shuffler's next draw is 0; after `pickRandom` (drawing 0) and
`giveBack 0`, the next draw is 1 — not the identical next draw. -/
theorem C8_counterexample :
    0 < (newShuffler 2 (fun _ => 0)).i ∧
    (pickRandom (newShuffler 2 (fun _ => 0))).1 = (0, true) ∧
    (pickRandom (giveBack (pickRandom (newShuffler 2 (fun _ => 0))).2 0)).1
      = (1, true) ∧
    (1 : Nat) ≠ 0 :=
  ⟨by decide, rfl, rfl, by decide⟩

/-- C8 amended: for every shuffler state with `i > 0`, `pickRandom`
(yielding `v`) followed by `giveBack v` restores `i` and restores the
multiset of still-drawable values (the window is a permutation of the
original), so the next draw is taken from exactly the same remaining set;
the concrete next value can differ because the PRNG stream has advanced
and the permutation map has been transposed. -/
theorem C8_pick_giveback_conservation (s : Shuffler) (hi : 0 < s.i) :
    (giveBack (pickRandom s).2 (pickRandom s).1.1).i = s.i ∧
    window (giveBack (pickRandom s).2 (pickRandom s).1.1) ~ window s := by
  have hi2 : (pickRandom s).2.i = s.i - 1 := pick_i hi
  constructor
  · show (pickRandom s).2.i + 1 = s.i
    omega
  · have hwin : window (giveBack (pickRandom s).2 (pickRandom s).1.1)
        = window (pickRandom s).2 ++ [(pickRandom s).1.1] := by
      show (List.range ((pickRandom s).2.i + 1)).map
          (atPosM (pmInsert (pickRandom s).2.permuts (pickRandom s).2.i
            (pickRandom s).1.1))
        = window (pickRandom s).2 ++ [(pickRandom s).1.1]
      rw [List.range_succ, List.map_append]
      congr 1
      · unfold window
        exact map_range_congr (fun p hp => atPos_insert_ne (by omega))
      · simp only [List.map_cons, List.map_nil]
        rw [atPos_insert_self]
    rw [hwin]
    calc window (pickRandom s).2 ++ [(pickRandom s).1.1]
        ~ (pickRandom s).1.1 :: window (pickRandom s).2 :=
          List.perm_append_singleton _ _
      _ ~ window s := (window_pick_perm s hi).symm

/-- Witness for C8 amended at a concrete state (`imax = 3`, stream
`0,1,2,...`). -/
theorem C8_pick_giveback_conservation_witness :
    (giveBack (pickRandom (newShuffler 3 id)).2
        (pickRandom (newShuffler 3 id)).1.1).i = (newShuffler 3 id).i ∧
    window (giveBack (pickRandom (newShuffler 3 id)).2
        (pickRandom (newShuffler 3 id)).1.1) ~ window (newShuffler 3 id) :=
  C8_pick_giveback_conservation (newShuffler 3 id) (by decide)

theorem pick_zero {s : Shuffler} (hi : s.i = 0) : pickRandom s = ((0, false), s) := by
  unfold pickRandom
  rw [if_pos hi]

theorem runPicks_zero_state {s : Shuffler} (hi : s.i = 0) :
    ∀ m, runPicks s m = (List.replicate m (0, false), s) := by
  intro m
  induction m with
  | zero => rfl
  | succ n ih =>
    show (let r := pickRandom s
          let rest := runPicks r.2 n
          (r.1 :: rest.1, rest.2)) = _
    rw [pick_zero hi]
    dsimp only
    rw [ih]
    rfl

theorem runPicks_invariant :
    ∀ (n : Nat) (s : Shuffler), n ≤ s.i →
      (runPicks s n).2.i = s.i - n ∧
      (∀ out ∈ (runPicks s n).1, out.2 = true) ∧
      ((runPicks s n).1.map Prod.fst ++ window (runPicks s n).2 ~ window s) := by
  intro n
  induction n with
  | zero =>
    intro s _
    refine ⟨by simp [runPicks], by simp [runPicks], ?_⟩
    show List.map Prod.fst [] ++ window s ~ window s
    simp
  | succ m ih =>
    intro s hn
    have hi : 0 < s.i := by omega
    have hr2i : (pickRandom s).2.i = s.i - 1 := pick_i hi
    have hm : m ≤ (pickRandom s).2.i := by omega
    obtain ⟨ih1, ih2, ih3⟩ := ih (pickRandom s).2 hm
    refine ⟨?_, ?_, ?_⟩
    · show (runPicks (pickRandom s).2 m).2.i = s.i - (m + 1)
      rw [ih1, hr2i]
      omega
    · intro out hout
      have hout' : out ∈ (pickRandom s).1 :: (runPicks (pickRandom s).2 m).1 := hout
      rcases List.mem_cons.mp hout' with rfl | htail
      · rw [pick_val hi]
      · exact ih2 out htail
    · calc (runPicks s (m + 1)).1.map Prod.fst ++ window (runPicks s (m + 1)).2
          = (pickRandom s).1.1 :: ((runPicks (pickRandom s).2 m).1.map Prod.fst
              ++ window (runPicks (pickRandom s).2 m).2) := rfl
        _ ~ (pickRandom s).1.1 :: window (pickRandom s).2 := List.Perm.cons _ ih3
        _ ~ window s := (window_pick_perm s hi).symm

theorem window_new (imax : Nat) (rnd : Nat → Nat) :
    window (newShuffler imax rnd) = List.range imax := by
  unfold window newShuffler
  calc (List.range imax).map (atPosM [])
      = (List.range imax).map id := map_range_congr (fun p _ => rfl)
    _ = List.range imax := List.map_id _

/-- C7: for every `imax > 0` and every PRNG stream (hence every seed),
`imax` consecutive `pickRandom` calls on a fresh shuffler all return
`ok = true` and yield every integer in `[0, imax)` exactly once (the
outputs are a permutation of `range imax`); every subsequent `pickRandom`
returns `(0, false)` and leaves the shuffler state unchanged. -/
theorem C7_shuffler_full_cycle (imax : Nat) (rnd : Nat → Nat) (_him : 0 < imax) :
    (∀ out ∈ (runPicks (newShuffler imax rnd) imax).1, out.2 = true) ∧
    ((runPicks (newShuffler imax rnd) imax).1.map Prod.fst ~ List.range imax) ∧
    (∀ m, runPicks (runPicks (newShuffler imax rnd) imax).2 m
        = (List.replicate m (0, false), (runPicks (newShuffler imax rnd) imax).2)) := by
  obtain ⟨h1, h2, h3⟩ :=
    runPicks_invariant imax (newShuffler imax rnd) (le_refl imax)
  have hiz : (runPicks (newShuffler imax rnd) imax).2.i = 0 := by
    rw [h1]
    show imax - imax = 0
    omega
  refine ⟨h2, ?_, fun m => runPicks_zero_state hiz m⟩
  have hw : window (runPicks (newShuffler imax rnd) imax).2 = [] := by
    unfold window
    rw [hiz]
    rfl
  rw [hw, List.append_nil, window_new] at h3
  exact h3

/-- Witness for C7 with `imax = 3` and the stream `0, 1, 2, ...`. -/
theorem C7_shuffler_full_cycle_witness :
    (∀ out ∈ (runPicks (newShuffler 3 id) 3).1, out.2 = true) ∧
    ((runPicks (newShuffler 3 id) 3).1.map Prod.fst ~ List.range 3) ∧
    (∀ m, runPicks (runPicks (newShuffler 3 id) 3).2 m
        = (List.replicate m (0, false), (runPicks (newShuffler 3 id) 3).2)) :=
  C7_shuffler_full_cycle 3 id (by decide)

/-! ### Digit strings (C10) -/

theorem isDigitC_digitChar {d : Nat} (h : d < 10) :
    isDigitC (Nat.digitChar d) = true := by
  revert h
  revert d
  decide

theorem isHexDigitC_digitChar {d : Nat} (h : d < 16) :
    isHexDigitC (Nat.digitChar d) = true := by
  revert h
  revert d
  decide

theorem digitVal_digitChar {d : Nat} (h : d < 10) :
    digitVal (Nat.digitChar d) = d := by
  revert h
  revert d
  decide

theorem hexVal_digitChar {d : Nat} (h : d < 16) :
    hexVal (Nat.digitChar d) = d := by
  revert h
  revert d
  decide

theorem mem_natDigitsRevAux {b : Nat} (hb : 2 ≤ b) :
    ∀ {fuel n : Nat} {c : Char}, c ∈ natDigitsRevAux b fuel n →
      ∃ d, d < b ∧ c = Nat.digitChar d := by
  intro fuel
  induction fuel with
  | zero =>
    intro n c h
    exact absurd h (by simp [natDigitsRevAux])
  | succ f ih =>
    intro n c h
    unfold natDigitsRevAux at h
    by_cases hn : n = 0
    · rw [if_pos hn] at h
      exact absurd h (by simp)
    · rw [if_neg hn] at h
      rcases List.mem_cons.mp h with rfl | h'
      · exact ⟨n % b, Nat.mod_lt _ (by omega), rfl⟩
      · exact ih h'

theorem mem_natToDec {n : Nat} {c : Char} (h : c ∈ natToDec n) :
    isDigitC c = true := by
  unfold natToDec at h
  by_cases hn : n = 0
  · rw [if_pos hn] at h
    rcases List.mem_singleton.mp h with rfl
    decide
  · rw [if_neg hn] at h
    unfold natToDecRev at h
    rcases mem_natDigitsRevAux (by omega) (List.mem_reverse.mp h) with ⟨d, hd, rfl⟩
    exact isDigitC_digitChar hd

theorem mem_natToHex {n : Nat} {c : Char} (h : c ∈ natToHex n) :
    isHexDigitC c = true := by
  unfold natToHex at h
  by_cases hn : n = 0
  · rw [if_pos hn] at h
    rcases List.mem_singleton.mp h with rfl
    decide
  · rw [if_neg hn] at h
    unfold natToHexRev at h
    rcases mem_natDigitsRevAux (by omega) (List.mem_reverse.mp h) with ⟨d, hd, rfl⟩
    exact isHexDigitC_digitChar hd

theorem digit_ne {c : Char} (h : isDigitC c = true) :
    c ≠ Char.ofNat 47 ∧ c ≠ Char.ofNat 58 ∧ c ≠ Char.ofNat 46 ∧ c ≠ Char.ofNat 37 := by
  refine ⟨?_, ?_, ?_, ?_⟩ <;>
    (rintro rfl; exact absurd h (by decide))

theorem hex_ne {c : Char} (h : isHexDigitC c = true) :
    c ≠ Char.ofNat 47 ∧ c ≠ Char.ofNat 58 ∧ c ≠ Char.ofNat 46 ∧ c ≠ Char.ofNat 37 := by
  refine ⟨?_, ?_, ?_, ?_⟩ <;>
    (rintro rfl; exact absurd h (by decide))

theorem foldl_digits_rev {b : Nat} (dv : Char → Nat) (hb : 2 ≤ b)
    (hd : ∀ d, d < b → dv (Nat.digitChar d) = d) :
    ∀ (fuel n acc : Nat), n ≤ fuel →
      List.foldl (fun a c => a * b + dv c) acc ((natDigitsRevAux b fuel n).reverse)
        = acc * b ^ (natDigitsRevAux b fuel n).length + n := by
  intro fuel
  induction fuel with
  | zero =>
    intro n acc h
    have : n = 0 := by omega
    subst this
    simp [natDigitsRevAux]
  | succ f ih =>
    intro n acc h
    unfold natDigitsRevAux
    by_cases hn : n = 0
    · rw [if_pos hn, hn]
      simp
    · rw [if_neg hn]
      have hb1 : (1 : Nat) < b := by omega
      have hlt : n / b < n := Nat.div_lt_self (Nat.pos_of_ne_zero hn) hb1
      have hrec : n / b ≤ f := by omega
      rw [List.reverse_cons, List.foldl_append, ih (n / b) acc hrec]
      simp only [List.foldl_cons, List.foldl_nil, List.length_cons]
      rw [hd (n % b) (Nat.mod_lt _ (by omega))]
      rw [pow_succ]
      have := Nat.div_add_mod n b
      ring_nf
      omega

theorem parseDecDigits_natToDec (n : Nat) : parseDecDigits (natToDec n) = n := by
  unfold parseDecDigits natToDec
  by_cases hn : n = 0
  · rw [if_pos hn, hn]
    decide
  · rw [if_neg hn]
    unfold natToDecRev
    have := foldl_digits_rev digitVal (b := 10) (by omega)
      (fun d hd => digitVal_digitChar hd) n n 0 (le_refl n)
    rw [this]
    ring

theorem hexfold_natToHex (n : Nat) :
    (natToHex n).foldl (fun acc c => acc * 16 + hexVal c) 0 = n := by
  unfold natToHex
  by_cases hn : n = 0
  · rw [if_pos hn, hn]
    decide
  · rw [if_neg hn]
    unfold natToHexRev
    have := foldl_digits_rev hexVal (b := 16) (by omega)
      (fun d hd => hexVal_digitChar hd) n n 0 (le_refl n)
    rw [this]
    ring

theorem natDigitsRevAux_length_le {b : Nat} (hb : 2 ≤ b) :
    ∀ (k fuel n : Nat), n ≤ fuel → n < b ^ k →
      (natDigitsRevAux b fuel n).length ≤ k := by
  intro k
  induction k with
  | zero =>
    intro fuel n hf hk
    have : n = 0 := by simpa using hk
    subst this
    cases fuel <;> simp [natDigitsRevAux]
  | succ j ih =>
    intro fuel n hf hk
    cases fuel with
    | zero => simp [natDigitsRevAux]
    | succ f =>
      unfold natDigitsRevAux
      by_cases hn : n = 0
      · rw [if_pos hn]
        simp
      · rw [if_neg hn]
        simp only [List.length_cons]
        have hb1 : (1 : Nat) < b := by omega
        have hlt : n / b < n := Nat.div_lt_self (Nat.pos_of_ne_zero hn) hb1
        have h1 : n / b ≤ f := by omega
        rw [pow_succ] at hk
        have h2 : n / b < b ^ j :=
          Nat.div_lt_of_lt_mul (lt_of_lt_of_eq hk (mul_comm _ _))
        have := ih f (n / b) h1 h2
        omega

theorem natToDec_length_le {n k : Nat} (h : n < 10 ^ k) (hk : 0 < k) :
    (natToDec n).length ≤ k := by
  unfold natToDec
  by_cases hn : n = 0
  · rw [if_pos hn]
    simpa using hk
  · rw [if_neg hn]
    unfold natToDecRev
    rw [List.length_reverse]
    exact natDigitsRevAux_length_le (by omega) k n n (le_refl n) h

theorem natToHex_length_le {n k : Nat} (h : n < 16 ^ k) (hk : 0 < k) :
    (natToHex n).length ≤ k := by
  unfold natToHex
  by_cases hn : n = 0
  · rw [if_pos hn]
    simpa using hk
  · rw [if_neg hn]
    unfold natToHexRev
    rw [List.length_reverse]
    exact natDigitsRevAux_length_le (by omega) k n n (le_refl n) h

theorem natDigitsRevAux_getLast {b : Nat} (hb : 2 ≤ b) :
    ∀ (fuel n : Nat), n ≤ fuel → n ≠ 0 →
      ∃ d, d ≠ 0 ∧ d < b ∧
        (natDigitsRevAux b fuel n).getLast? = some (Nat.digitChar d) := by
  intro fuel
  induction fuel with
  | zero => intro n h1 h2; omega
  | succ f ih =>
    intro n h1 h2
    unfold natDigitsRevAux
    rw [if_neg h2]
    by_cases hq : n / b = 0
    · refine ⟨n % b, ?_, Nat.mod_lt _ (by omega), ?_⟩
      · have hdm := Nat.div_add_mod n b
        rw [hq] at hdm
        omega
      · have : natDigitsRevAux b f (n / b) = [] := by
          cases f <;> simp [natDigitsRevAux, hq]
        rw [this]
        rfl
    · have hb1 : (1 : Nat) < b := by omega
      have hlt : n / b < n := Nat.div_lt_self (Nat.pos_of_ne_zero h2) hb1
      have h1' : n / b ≤ f := by omega
      rcases ih (n / b) h1' hq with ⟨d, hd0, hdb, hlast⟩
      refine ⟨d, hd0, hdb, ?_⟩
      cases htl : natDigitsRevAux b f (n / b) with
      | nil =>
        rw [htl] at hlast
        exact absurd hlast (by simp)
      | cons x xs =>
        rw [List.getLast?_cons_cons, ← htl]
        exact hlast

theorem natToDec_no_leading_zero {n : Nat} (h : 1 < (natToDec n).length) :
    ¬(natToDec n).headD (Char.ofNat 32) = Char.ofNat 48 := by
  unfold natToDec at h ⊢
  by_cases hn : n = 0
  · rw [if_pos hn] at h
    exact absurd h (by decide)
  · rw [if_neg hn] at h ⊢
    unfold natToDecRev at h ⊢
    rcases natDigitsRevAux_getLast (b := 10) (by omega) n n (le_refl n) hn with
      ⟨d, hd0, hdb, hlast⟩
    have hhead : ((natDigitsRevAux 10 n n).reverse).headD (Char.ofNat 32)
        = Nat.digitChar d := by
      cases hl : natDigitsRevAux 10 n n using List.reverseRecOn with
      | nil => rw [hl] at hlast; exact absurd hlast (by simp)
      | append_singleton ys y =>
        rw [hl] at hlast
        rw [List.getLast?_append_cons] at hlast
        simp only [List.getLast?_singleton] at hlast
        injection hlast with hy
        rw [List.reverse_append]
        simp [hy]
    rw [hhead]
    intro hc
    have : d < 10 := hdb
    interval_cases d <;> first
      | exact absurd rfl hd0
      | (revert hc; decide)

/-! ### Splitting and joining on a separator (C10) -/

theorem splitOnChar_ne_nil (c : Char) (s : GoStr) : splitOnChar c s ≠ [] := by
  induction s with
  | nil => simp [splitOnChar]
  | cons x xs ih =>
    unfold splitOnChar
    cases hs : splitOnChar c xs with
    | nil => simp
    | cons hh tt =>
      show (if x = c then [] :: hh :: tt else (x :: hh) :: tt) ≠ []
      split <;> simp

theorem splitOnChar_append (c : Char) (x s hd : GoStr) (tl : List GoStr)
    (hx : ∀ ch ∈ x, ch ≠ c) (hs : splitOnChar c s = hd :: tl) :
    splitOnChar c (x ++ s) = (x ++ hd) :: tl := by
  induction x with
  | nil => simpa using hs
  | cons a x' ih =>
    have ha : a ≠ c := hx a (List.mem_cons_self a x')
    have hx' : ∀ ch ∈ x', ch ≠ c := fun ch hch => hx ch (List.mem_cons_of_mem a hch)
    show splitOnChar c (a :: (x' ++ s)) = ((a :: x') ++ hd) :: tl
    unfold splitOnChar
    rw [ih hx']
    show (if a = c then [] :: (x' ++ hd) :: tl else (a :: (x' ++ hd)) :: tl)
      = ((a :: x') ++ hd) :: tl
    rw [if_neg ha]
    rfl

theorem splitOnChar_no_sep (c : Char) (x : GoStr) (hx : ∀ ch ∈ x, ch ≠ c) :
    splitOnChar c x = [x] := by
  have h0 : splitOnChar c ([] : GoStr) = [] :: [] := rfl
  have := splitOnChar_append c x [] [] [] hx h0
  simpa using this

theorem splitOnChar_cons_sep (c : Char) (s : GoStr) :
    splitOnChar c (c :: s) = [] :: splitOnChar c s := by
  cases hs : splitOnChar c s with
  | nil => exact absurd hs (splitOnChar_ne_nil c s)
  | cons hh tt =>
    unfold splitOnChar
    rw [hs]
    show (if c = c then [] :: hh :: tt else (c :: hh) :: tt) = [] :: hh :: tt
    rw [if_pos rfl]

theorem splitOnChar_piece (c : Char) (x s : GoStr) (hx : ∀ ch ∈ x, ch ≠ c) :
    splitOnChar c (x ++ c :: s) = x :: splitOnChar c s := by
  have := splitOnChar_append c x (c :: s) [] (splitOnChar c s) hx
    (splitOnChar_cons_sep c s)
  simpa using this

theorem joinSep_cons (c : Char) (x y : GoStr) (rest : List GoStr) :
    joinSep c (x :: y :: rest) = x ++ c :: joinSep c (y :: rest) := rfl

theorem splitOnChar_joinSep (c : Char) (ps : List GoStr) (hne : ps ≠ [])
    (hps : ∀ p ∈ ps, ∀ ch ∈ p, ch ≠ c) :
    splitOnChar c (joinSep c ps) = ps := by
  induction ps with
  | nil => exact absurd rfl hne
  | cons x rest ih =>
    cases rest with
    | nil =>
      show splitOnChar c x = [x]
      exact splitOnChar_no_sep c x (hps x (List.mem_cons_self x []))
    | cons y rest' =>
      rw [joinSep_cons, splitOnChar_piece c x _ (hps x (List.mem_cons_self x _)),
        ih (by simp) (fun p hp => hps p (List.mem_cons_of_mem x hp))]

theorem mem_joinSep (c ch : Char) : ∀ (ps : List GoStr), ch ∈ joinSep c ps →
    ch = c ∨ ∃ p, p ∈ ps ∧ ch ∈ p
  | [], h => absurd h (by simp [joinSep])
  | [x], h => Or.inr ⟨x, by simp, h⟩
  | x :: y :: rest, h => by
    rw [joinSep_cons] at h
    rcases List.mem_append.mp h with h1 | h2
    · exact Or.inr ⟨x, by simp, h1⟩
    · rcases List.mem_cons.mp h2 with rfl | h3
      · exact Or.inl rfl
      · rcases mem_joinSep c ch (y :: rest) h3 with h4 | ⟨p, hp, hchp⟩
        · exact Or.inl h4
        · exact Or.inr ⟨p, List.mem_cons_of_mem x hp, hchp⟩

theorem joinSep_ne_nil (c : Char) (x : GoStr) (hx : x ≠ []) (rest : List GoStr) :
    joinSep c (x :: rest) ≠ [] := by
  cases rest with
  | nil => simpa [joinSep] using hx
  | cons y r =>
    rw [joinSep_cons]
    cases x with
    | nil => exact absurd rfl hx
    | cons a t => simp

theorem joinSep_cons_decomp (c : Char) (y : GoStr) (rest : List GoStr) :
    ∃ w, joinSep c (y :: rest) = y ++ w := by
  cases rest with
  | nil => exact ⟨[], (List.append_nil y).symm⟩
  | cons z r => exact ⟨c :: joinSep c (z :: r), rfl⟩

theorem sep_mem_joinSep (c : Char) (x y : GoStr) (rest : List GoStr) :
    c ∈ joinSep c (x :: y :: rest) := by
  rw [joinSep_cons]
  exact List.mem_append.mpr (Or.inr (List.mem_cons_self c _))


/-! ### Locating the first double colon (C10) -/

/-- Whether the string contains two adjacent colons (helper predicate for
reasoning about `splitCC`). -/
def hasCC : GoStr → Bool
  | [] => false
  | [_] => false
  | a :: b :: t =>
    (decide (a = Char.ofNat 58) && decide (b = Char.ofNat 58)) || hasCC (b :: t)

theorem splitCC_eq_none {s : GoStr} (h : hasCC s = false) :
    splitCC s = Option.none := by
  induction s with
  | nil => rfl
  | cons a t ih =>
    cases t with
    | nil => rfl
    | cons b r =>
      unfold hasCC at h
      simp only [Bool.or_eq_false_iff, Bool.and_eq_false_iff, decide_eq_false_iff_not] at h
      unfold splitCC
      rw [if_neg ?_, ih h.2]
      · rfl
      · intro hc
        rcases h.1 with h1 | h1
        · exact h1 hc.1
        · exact h1 hc.2

theorem splitCC_append (l r : GoStr) (h : hasCC (l ++ [Char.ofNat 58]) = false) :
    splitCC (l ++ Char.ofNat 58 :: Char.ofNat 58 :: r) = some (l, r) := by
  induction l with
  | nil =>
    show splitCC (Char.ofNat 58 :: Char.ofNat 58 :: r) = some ([], r)
    simp [splitCC]
  | cons a l' ih =>
    simp only [List.cons_append] at h ⊢
    cases hl' : l' with
    | nil =>
      subst hl'
      simp only [List.nil_append] at h ⊢
      have ha : ¬(a = Char.ofNat 58) := by
        intro hh
        rw [hh] at h
        exact absurd h (by decide)
      simp only [splitCC]
      rw [if_neg (fun hc => ha hc.1)]
      simp [splitCC]
    | cons b l'' =>
      subst hl'
      simp only [List.cons_append] at h ⊢
      have hab : ¬(a = Char.ofNat 58 ∧ b = Char.ofNat 58) := by
        intro hc
        unfold hasCC at h
        simp only [Bool.or_eq_false_iff, Bool.and_eq_false_iff,
          decide_eq_false_iff_not] at h
        rcases h.1 with h1 | h1
        · exact h1 hc.1
        · exact h1 hc.2
      have h' : hasCC ((b :: l'') ++ [Char.ofNat 58]) = false := by
        unfold hasCC at h
        simp only [Bool.or_eq_false_iff] at h
        simpa using h.2
      simp only [splitCC]
      rw [if_neg hab]
      have hih := ih h'
      simp only [List.cons_append] at hih
      rw [hih]
      rfl

theorem hasCC_append_no_colon (x s : GoStr)
    (hx : ∀ ch ∈ x, ch ≠ Char.ofNat 58) :
    hasCC (x ++ s) = hasCC s := by
  induction x with
  | nil => rfl
  | cons a x' ih =>
    have ha : a ≠ Char.ofNat 58 := hx a (List.mem_cons_self a x')
    have hx' : ∀ ch ∈ x', ch ≠ Char.ofNat 58 :=
      fun ch hch => hx ch (List.mem_cons_of_mem a hch)
    show hasCC (a :: (x' ++ s)) = hasCC s
    cases hxs : x' ++ s with
    | nil =>
      have hs : s = [] := (List.append_eq_nil.mp hxs).2
      rw [hs]
      rfl
    | cons b t =>
      have hstep : hasCC (a :: b :: t)
          = ((decide (a = Char.ofNat 58) && decide (b = Char.ofNat 58))
            || hasCC (b :: t)) := rfl
      rw [hstep, decide_eq_false ha]
      simp only [Bool.false_and, Bool.false_or]
      rw [← hxs]
      exact ih hx'

theorem hasCC_no_colon (x : GoStr) (hx : ∀ ch ∈ x, ch ≠ Char.ofNat 58) :
    hasCC x = false := by
  have h2 := hasCC_append_no_colon x [] hx
  rw [List.append_nil] at h2
  exact h2

theorem hasCC_sep_cons (b : Char) (t : GoStr) (hb : b ≠ Char.ofNat 58) :
    hasCC (Char.ofNat 58 :: b :: t) = hasCC (b :: t) := by
  have hstep : hasCC (Char.ofNat 58 :: b :: t)
      = ((decide ((Char.ofNat 58 : Char) = Char.ofNat 58)
          && decide (b = Char.ofNat 58)) || hasCC (b :: t)) := rfl
  rw [hstep, decide_eq_false hb]
  simp

theorem hasCC_joinSep_append (ps : List GoStr)
    (hps : ∀ p ∈ ps, p ≠ [] ∧ ∀ ch ∈ p, ch ≠ Char.ofNat 58) (s : GoStr) :
    hasCC (joinSep (Char.ofNat 58) ps ++ s) = hasCC s := by
  induction ps with
  | nil => rfl
  | cons x rest ih =>
    cases rest with
    | nil =>
      show hasCC (x ++ s) = hasCC s
      exact hasCC_append_no_colon x s (hps x (List.mem_cons_self x [])).2
    | cons y rest' =>
      rw [joinSep_cons, List.append_assoc,
        hasCC_append_no_colon x _ (hps x (List.mem_cons_self x _)).2]
      rcases joinSep_cons_decomp (Char.ofNat 58) y rest' with ⟨w, hw⟩
      show hasCC (Char.ofNat 58 :: (joinSep (Char.ofNat 58) (y :: rest') ++ s))
        = hasCC s
      rw [hw, List.append_assoc]
      have hy := hps y (List.mem_cons_of_mem x (List.mem_cons_self y rest'))
      cases hyy : y with
      | nil => exact absurd hyy hy.1
      | cons a y' =>
        have ha : a ≠ Char.ofNat 58 := hy.2 a (hyy ▸ List.mem_cons_self a y')
        show hasCC (Char.ofNat 58 :: a :: (y' ++ (w ++ s))) = hasCC s
        rw [hasCC_sep_cons a (y' ++ (w ++ s)) ha]
        have hfold : a :: (y' ++ (w ++ s))
            = joinSep (Char.ofNat 58) (y :: rest') ++ s := by
          rw [hw, hyy, List.cons_append, List.cons_append, List.append_assoc]
        rw [hfold]
        exact ih (fun p hp => hps p (List.mem_cons_of_mem x hp))

theorem splitCC_joinSep_none (ps : List GoStr)
    (hps : ∀ p ∈ ps, p ≠ [] ∧ ∀ ch ∈ p, ch ≠ Char.ofNat 58) :
    splitCC (joinSep (Char.ofNat 58) ps) = Option.none := by
  apply splitCC_eq_none
  have := hasCC_joinSep_append ps hps []
  simpa using this


/-! ### Field round trips (C10) -/

theorem natDigitsRevAux_ne_nil {b n : Nat} (hn : n ≠ 0) :
    natDigitsRevAux b n n ≠ [] := by
  cases n with
  | zero => exact absurd rfl hn
  | succ m =>
    unfold natDigitsRevAux
    rw [if_neg hn]
    simp

theorem natToDec_ne_nil (n : Nat) : natToDec n ≠ [] := by
  unfold natToDec
  by_cases hn : n = 0
  · rw [if_pos hn]
    simp
  · rw [if_neg hn]
    unfold natToDecRev
    intro hc
    exact natDigitsRevAux_ne_nil hn (List.reverse_eq_nil_iff.mp hc)

theorem natToHex_ne_nil (n : Nat) : natToHex n ≠ [] := by
  unfold natToHex
  by_cases hn : n = 0
  · rw [if_pos hn]
    simp
  · rw [if_neg hn]
    unfold natToHexRev
    intro hc
    exact natDigitsRevAux_ne_nil hn (List.reverse_eq_nil_iff.mp hc)

theorem parseOctet_natToDec {o : Nat} (h : o < 256) :
    parseOctet (natToDec o) = some o := by
  have hne := natToDec_ne_nil o
  have hlen : (natToDec o).length ≤ 3 :=
    natToDec_length_le (show o < 10 ^ 3 by omega) (by omega)
  have hall : (natToDec o).all isDigitC = true :=
    List.all_eq_true.mpr (fun c hc => mem_natToDec hc)
  unfold parseOctet
  split
  next hcond =>
    exfalso
    simp only [Bool.or_eq_true, decide_eq_true_eq, Bool.not_eq_true'] at hcond
    rcases hcond with (hc | hc) | hc
    · exact hne hc
    · omega
    · rw [hall] at hc
      simp at hc
  next =>
    split
    next hcond2 =>
      exfalso
      simp only [Bool.and_eq_true, decide_eq_true_eq] at hcond2
      exact natToDec_no_leading_zero hcond2.1 hcond2.2
    next =>
      show (if parseDecDigits (natToDec o) ≤ 255
          then some (parseDecDigits (natToDec o)) else Option.none) = some o
      rw [parseDecDigits_natToDec]
      rw [if_pos (by omega)]

theorem parseBits_natToDec (b : Nat) : parseBits (natToDec b) = some b := by
  have hne := natToDec_ne_nil b
  have hall : (natToDec b).all isDigitC = true :=
    List.all_eq_true.mpr (fun c hc => mem_natToDec hc)
  unfold parseBits
  split
  next hcond =>
    exfalso
    simp only [Bool.or_eq_true, decide_eq_true_eq, Bool.not_eq_true'] at hcond
    rcases hcond with hc | hc
    · exact hne hc
    · rw [hall] at hc
      simp at hc
  next =>
    split
    next hcond2 =>
      exfalso
      simp only [Bool.and_eq_true, decide_eq_true_eq] at hcond2
      exact natToDec_no_leading_zero hcond2.1 hcond2.2
    next =>
      rw [parseDecDigits_natToDec]

theorem parseHexField_natToHex {g : Nat} (h : g < 2 ^ 16) :
    parseHexField (natToHex g) = some g := by
  have hne := natToHex_ne_nil g
  have hlen : (natToHex g).length ≤ 4 :=
    natToHex_length_le (show g < 16 ^ 4 by omega) (by omega)
  have hall : (natToHex g).all isHexDigitC = true :=
    List.all_eq_true.mpr (fun c hc => mem_natToHex hc)
  unfold parseHexField
  split
  next hcond =>
    exfalso
    simp only [Bool.or_eq_true, decide_eq_true_eq, Bool.not_eq_true'] at hcond
    rcases hcond with (hc | hc) | hc
    · exact hne hc
    · omega
    · rw [hall] at hc
      simp at hc
  next =>
    rw [hexfold_natToHex]


/-! ### IPv4 round trip (C10) -/

theorem v4Octets_lt (v : Nat) : ∀ o ∈ v4Octets v, o < 256 := by
  intro o ho
  simp only [v4Octets, List.mem_cons, List.not_mem_nil, or_false] at ho
  rcases ho with rfl | rfl | rfl | rfl <;> omega

theorem mem_formatV4 {v : Nat} {ch : Char} (h : ch ∈ formatV4 v) :
    ch = Char.ofNat 46 ∨ isDigitC ch = true := by
  rcases mem_joinSep (Char.ofNat 46) ch _ h with h1 | ⟨p, hp, hchp⟩
  · exact Or.inl h1
  · rcases List.mem_map.mp hp with ⟨o, _, rfl⟩
    exact Or.inr (mem_natToDec hchp)

theorem dot_mem_formatV4 (v : Nat) : Char.ofNat 46 ∈ formatV4 v := by
  unfold formatV4 v4Octets
  simp only [List.map]
  exact sep_mem_joinSep _ _ _ _

theorem splitOnChar_formatV4 (v : Nat) :
    splitOnChar (Char.ofNat 46) (formatV4 v) = (v4Octets v).map natToDec := by
  apply splitOnChar_joinSep
  · simp [v4Octets]
  · intro p hp ch hch
    rcases List.mem_map.mp hp with ⟨o, _, rfl⟩
    exact (digit_ne (mem_natToDec hch)).2.2.1

theorem mapM_parseOctet (l : List Nat) (h : ∀ o ∈ l, o < 256) :
    (l.map natToDec).mapM parseOctet = some l := by
  induction l with
  | nil => rfl
  | cons o t ih =>
    rw [List.map_cons, List.mapM_cons,
      parseOctet_natToDec (h o (List.mem_cons_self o t)),
      ih (fun o' ho' => h o' (List.mem_cons_of_mem o ho'))]
    rfl

theorem parseV4_formatV4 {v : Nat} (h : v < 2 ^ 32) :
    parseV4 (formatV4 v) = some v := by
  unfold parseV4
  rw [splitOnChar_formatV4, mapM_parseOctet _ (v4Octets_lt v)]
  show (if ((v4Octets v).length = 4)
      then some ((v4Octets v).foldl (fun acc o => acc * 256 + o) 0)
      else Option.none) = some v
  rw [if_pos (by simp [v4Octets])]
  simp only [v4Octets, List.foldl]
  congr 1
  have h24 : (2 : Nat) ^ 24 = 16777216 := by norm_num
  have h16 : (2 : Nat) ^ 16 = 65536 := by norm_num
  have h8 : (2 : Nat) ^ 8 = 256 := by norm_num
  have h32 : (2 : Nat) ^ 32 = 4294967296 := by norm_num
  rw [h24, h16, h8]
  rw [h32] at h
  omega


/-! ### IPv6 groups, zero runs and field lists (C10) -/

theorem v6Groups_lt (v : Nat) : ∀ g ∈ v6Groups v, g < 2 ^ 16 := by
  intro g hg
  rcases List.mem_map.mp hg with ⟨i, _, rfl⟩
  exact Nat.mod_lt _ (by norm_num)

theorem v6Groups_length (v : Nat) : (v6Groups v).length = 8 := by
  simp [v6Groups]

theorem v6Groups_expand (v : Nat) :
    v6Groups v = [v / 2 ^ 112 % 2 ^ 16, v / 2 ^ 96 % 2 ^ 16, v / 2 ^ 80 % 2 ^ 16,
      v / 2 ^ 64 % 2 ^ 16, v / 2 ^ 48 % 2 ^ 16, v / 2 ^ 32 % 2 ^ 16,
      v / 2 ^ 16 % 2 ^ 16, v / 2 ^ 0 % 2 ^ 16] := by
  unfold v6Groups
  rw [show List.range 8 = [0, 1, 2, 3, 4, 5, 6, 7] from by decide]
  simp only [List.map]

theorem assembleGroups_v6Groups {v : Nat} (h : v < 2 ^ 128) :
    assembleGroups (v6Groups v) = v := by
  rw [v6Groups_expand]
  unfold assembleGroups
  simp only [List.foldl]
  have e112 : (2 : Nat) ^ 112 = 5192296858534827628530496329220096 := by norm_num
  have e96 : (2 : Nat) ^ 96 = 79228162514264337593543950336 := by norm_num
  have e80 : (2 : Nat) ^ 80 = 1208925819614629174706176 := by norm_num
  have e64 : (2 : Nat) ^ 64 = 18446744073709551616 := by norm_num
  have e48 : (2 : Nat) ^ 48 = 281474976710656 := by norm_num
  have e32 : (2 : Nat) ^ 32 = 4294967296 := by norm_num
  have e16 : (2 : Nat) ^ 16 = 65536 := by norm_num
  have e0 : (2 : Nat) ^ 0 = 1 := by norm_num
  have e128 : (2 : Nat) ^ 128
      = 340282366920938463463374607431768211456 := by norm_num
  rw [e112, e96, e80, e64, e48, e32, e16, e0]
  rw [e128] at h
  omega

theorem no_dot_natToHex {g : Nat} : Char.ofNat 46 ∉ natToHex g := by
  intro hmem
  exact absurd (mem_natToHex hmem) (by decide)

theorem parseFields_hex (allowV4 : Bool) (gs : List Nat)
    (hgs : ∀ g ∈ gs, g < 2 ^ 16) (hne : gs ≠ []) :
    parseFields allowV4 (gs.map natToHex) = some gs := by
  induction gs with
  | nil => exact absurd rfl hne
  | cons g t ih =>
    cases t with
    | nil =>
      show parseFields allowV4 [natToHex g] = some [g]
      unfold parseFields
      rw [if_neg no_dot_natToHex,
        parseHexField_natToHex (hgs g (List.mem_cons_self g []))]
      rfl
    | cons g2 t' =>
      show parseFields allowV4
        (natToHex g :: natToHex g2 :: t'.map natToHex) = some (g :: g2 :: t')
      unfold parseFields
      have hih := ih (fun g' hg' => hgs g' (List.mem_cons_of_mem g hg')) (by simp)
      rw [List.map_cons] at hih
      rw [parseHexField_natToHex (hgs g (List.mem_cons_self g _)), hih]

theorem zlen_le (l : List Nat) : zlen l ≤ l.length := by
  induction l with
  | nil => simp [zlen]
  | cons g t ih =>
    unfold zlen
    split
    · simpa using ih
    · simp

theorem zlen_take (l : List Nat) : l.take (zlen l) = List.replicate (zlen l) 0 := by
  induction l with
  | nil => rfl
  | cons g t ih =>
    unfold zlen
    by_cases hg : g = 0
    · rw [if_pos hg, List.take_succ_cons, ih, hg]
      rfl
    · rw [if_neg hg]
      rfl

theorem bestRunAux_spec (full : List Nat) :
    ∀ (t : List Nat) (i : Nat) (best : Option (Nat × Nat)),
      full.drop i = t →
      (∀ j m, best = some (j, m) →
        2 ≤ m ∧ j + m ≤ full.length ∧ (full.drop j).take m = List.replicate m 0) →
      ∀ j m, bestRunAux i t best = some (j, m) →
        2 ≤ m ∧ j + m ≤ full.length ∧ (full.drop j).take m = List.replicate m 0 := by
  intro t
  induction t with
  | nil =>
    intro i best hdrop hbest j m hout
    unfold bestRunAux at hout
    exact hbest j m hout
  | cons g t' ih =>
    intro i best hdrop hbest j m hout
    unfold bestRunAux at hout
    have hdrop' : full.drop (i + 1) = t' := by
      have h1 : full.drop (i + 1) = (full.drop i).drop 1 := by
        rw [List.drop_drop, Nat.add_comm]
      rw [h1, hdrop]
      rfl
    have hlen : full.length - i = t'.length + 1 := by
      have := congrArg List.length hdrop
      simpa using this
    refine ih (i + 1) _ hdrop' ?_ j m hout
    intro j' m' hsome
    split at hsome
    next hkeep =>
      injection hsome with hpair
      injection hpair with h1 h2
      subst h1
      subst h2
      have h2m : 2 ≤ zlen (g :: t') := by
        rcases hbb : best with _ | ⟨bj, bm⟩ <;> rw [hbb] at hkeep <;>
          simp only [Bool.and_eq_true, decide_eq_true_eq] at hkeep
        · exact hkeep
        · exact hkeep.1
      have hzl : zlen (g :: t') ≤ t'.length + 1 := by
        have := zlen_le (g :: t')
        simpa using this
      refine ⟨h2m, by omega, ?_⟩
      rw [hdrop]
      exact zlen_take (g :: t')
    next =>
      exact hbest j' m' hsome

theorem bestRun_spec (gs : List Nat) {zs zl : Nat} (h : bestRun gs = some (zs, zl)) :
    2 ≤ zl ∧ zs + zl ≤ gs.length ∧ (gs.drop zs).take zl = List.replicate zl 0 := by
  refine bestRunAux_spec gs gs 0 Option.none rfl ?_ zs zl h
  intro j m hc
  cases hc

theorem run_decomp (gs : List Nat) (zs zl : Nat)
    (htake : (gs.drop zs).take zl = List.replicate zl 0) :
    gs.take zs ++ (List.replicate zl 0 ++ gs.drop (zs + zl)) = gs := by
  rw [← htake]
  have hdd : gs.drop (zs + zl) = (gs.drop zs).drop zl := by
    rw [List.drop_drop, Nat.add_comm]
  rw [hdd, List.take_append_drop, List.take_append_drop]


/-! ### IPv6 round trip (C10) -/

theorem parseV6_eval (s L R : GoStr) (gl gr : List Nat)
    (hs : splitCC s = some (L, R))
    (hccR : splitCC R = Option.none)
    (hgl : (if L = [] then some [] else
      parseFields false (splitOnChar (Char.ofNat 58) L)) = some gl)
    (hgr : (if R = [] then some [] else
      parseFields true (splitOnChar (Char.ofNat 58) R)) = some gr)
    (hlen : gl.length + gr.length ≤ 7) :
    parseV6 s = some (assembleGroups
      (gl ++ List.replicate (8 - gl.length - gr.length) 0 ++ gr)) := by
  unfold parseV6
  rw [hs]
  dsimp only
  rw [hccR]
  simp only [Option.isSome_none, Bool.false_eq_true, if_false]
  rw [hgl, hgr]
  dsimp only
  rw [if_pos hlen]


theorem parseV6_nocc (s : GoStr) (gs : List Nat)
    (hs : splitCC s = Option.none)
    (hpf : parseFields true (splitOnChar (Char.ofNat 58) s) = some gs)
    (hlen : gs.length = 8) :
    parseV6 s = some (assembleGroups gs) := by
  unfold parseV6
  rw [hs]
  dsimp only
  rw [hpf]
  dsimp only
  rw [if_pos hlen]

theorem natToHex_piece (gs : List Nat) :
    ∀ p ∈ gs.map natToHex, p ≠ [] ∧ ∀ ch ∈ p, ch ≠ Char.ofNat 58 := by
  intro p hp
  rcases List.mem_map.mp hp with ⟨g, _, rfl⟩
  exact ⟨natToHex_ne_nil g, fun ch hch => (hex_ne (mem_natToHex hch)).2.1⟩

theorem map_natToHex_ne_nil {gs : List Nat} (hne : gs ≠ []) :
    gs.map natToHex ≠ [] := by
  intro hc
  have hl : (gs.map natToHex).length = 0 := by rw [hc]; rfl
  rw [List.length_map] at hl
  exact hne (List.length_eq_zero.mp hl)

theorem v6Groups_ne_nil (v : Nat) : v6Groups v ≠ [] := by
  intro hc
  have := congrArg List.length hc
  rw [v6Groups_length] at this
  simp at this

theorem parseV6_format_nocc {v : Nat} (h : v < 2 ^ 128)
    (hbr : bestRun (v6Groups v) = Option.none) :
    parseV6 (formatV6Groups (v6Groups v)) = some v := by
  have hfmt : formatV6Groups (v6Groups v)
      = joinSep (Char.ofNat 58) ((v6Groups v).map natToHex) := by
    unfold formatV6Groups
    rw [hbr]
  have hsp : splitOnChar (Char.ofNat 58)
      (joinSep (Char.ofNat 58) ((v6Groups v).map natToHex))
      = (v6Groups v).map natToHex :=
    splitOnChar_joinSep _ _ (map_natToHex_ne_nil (v6Groups_ne_nil v))
      (fun p hp ch hch => (natToHex_piece _ p hp).2 ch hch)
  have hpf : parseFields true (splitOnChar (Char.ofNat 58)
      (joinSep (Char.ofNat 58) ((v6Groups v).map natToHex))) = some (v6Groups v) := by
    rw [hsp]
    exact parseFields_hex true _ (v6Groups_lt v) (v6Groups_ne_nil v)
  rw [hfmt, parseV6_nocc _ (v6Groups v)
      (splitCC_joinSep_none _ (natToHex_piece _)) hpf (v6Groups_length v),
    assembleGroups_v6Groups h]

theorem take_elems_parse {gs : List Nat} (hlt : ∀ g ∈ gs, g < 2 ^ 16) (n : Nat) :
    (if joinSep (Char.ofNat 58) ((gs.take n).map natToHex) = [] then some []
      else parseFields false (splitOnChar (Char.ofNat 58)
        (joinSep (Char.ofNat 58) ((gs.take n).map natToHex)))) = some (gs.take n) := by
  by_cases hz : gs.take n = []
  · rw [hz]
    show (if ([] : GoStr) = [] then some [] else _) = some []
    rw [if_pos rfl]
  · have hLne : joinSep (Char.ofNat 58) ((gs.take n).map natToHex) ≠ [] := by
      cases hq : gs.take n with
      | nil => exact absurd hq hz
      | cons a t =>
        rw [List.map_cons]
        exact joinSep_ne_nil _ _ (natToHex_ne_nil a) _
    rw [if_neg hLne,
      splitOnChar_joinSep _ _ (map_natToHex_ne_nil hz)
        (fun p hp ch hch => (natToHex_piece _ p hp).2 ch hch),
      parseFields_hex false _ (fun g hg => hlt g (List.mem_of_mem_take hg)) hz]

theorem drop_elems_parse {gs : List Nat} (hlt : ∀ g ∈ gs, g < 2 ^ 16) (n : Nat) :
    (if joinSep (Char.ofNat 58) ((gs.drop n).map natToHex) = [] then some []
      else parseFields true (splitOnChar (Char.ofNat 58)
        (joinSep (Char.ofNat 58) ((gs.drop n).map natToHex)))) = some (gs.drop n) := by
  by_cases hz : gs.drop n = []
  · rw [hz]
    show (if ([] : GoStr) = [] then some [] else _) = some []
    rw [if_pos rfl]
  · have hLne : joinSep (Char.ofNat 58) ((gs.drop n).map natToHex) ≠ [] := by
      cases hq : gs.drop n with
      | nil => exact absurd hq hz
      | cons a t =>
        rw [List.map_cons]
        exact joinSep_ne_nil _ _ (natToHex_ne_nil a) _
    rw [if_neg hLne,
      splitOnChar_joinSep _ _ (map_natToHex_ne_nil hz)
        (fun p hp ch hch => (natToHex_piece _ p hp).2 ch hch),
      parseFields_hex true _ (fun g hg => hlt g (List.mem_of_mem_drop hg)) hz]

theorem parseV6_format_cc {v : Nat} (h : v < 2 ^ 128) {zs zl : Nat}
    (hbr : bestRun (v6Groups v) = some (zs, zl)) :
    parseV6 (formatV6Groups (v6Groups v)) = some v := by
  obtain ⟨h2zl, hzzl, htake⟩ := bestRun_spec _ hbr
  have h8 := v6Groups_length v
  rw [h8] at hzzl
  have hfmt : formatV6Groups (v6Groups v)
      = joinSep (Char.ofNat 58) (((v6Groups v).take zs).map natToHex)
        ++ Char.ofNat 58 :: Char.ofNat 58 ::
          joinSep (Char.ofNat 58) (((v6Groups v).drop (zs + zl)).map natToHex) := by
    unfold formatV6Groups
    rw [hbr]
  have hL : hasCC (joinSep (Char.ofNat 58) (((v6Groups v).take zs).map natToHex)
      ++ [Char.ofNat 58]) = false := by
    rw [hasCC_joinSep_append _ (natToHex_piece _) _]
    rfl
  have hsplit := splitCC_append _
    (joinSep (Char.ofNat 58) (((v6Groups v).drop (zs + zl)).map natToHex)) hL
  have hccR := splitCC_joinSep_none (((v6Groups v).drop (zs + zl)).map natToHex)
    (natToHex_piece _)
  have hgl := take_elems_parse (v6Groups_lt v) zs
  have hgr := drop_elems_parse (v6Groups_lt v) (zs + zl)
  have hlenT : ((v6Groups v).take zs).length = zs := by
    rw [List.length_take, h8]
    omega
  have hlenD : ((v6Groups v).drop (zs + zl)).length = 8 - (zs + zl) := by
    rw [List.length_drop, h8]
  have hlen : ((v6Groups v).take zs).length
      + ((v6Groups v).drop (zs + zl)).length ≤ 7 := by
    rw [hlenT, hlenD]
    omega
  rw [hfmt, parseV6_eval _ _ _ _ _ hsplit hccR hgl hgr hlen]
  have hcount : 8 - ((v6Groups v).take zs).length
      - ((v6Groups v).drop (zs + zl)).length = zl := by
    rw [hlenT, hlenD]
    omega
  rw [hcount, List.append_assoc, run_decomp _ zs zl htake,
    assembleGroups_v6Groups h]


/-! ### IPv4-mapped form and the address round trip (C10) -/

theorem hasCC_colon_cons_no_colon (s : GoStr)
    (hs : ∀ ch ∈ s, ch ≠ Char.ofNat 58) : hasCC (Char.ofNat 58 :: s) = false := by
  cases s with
  | nil => rfl
  | cons b t =>
    rw [hasCC_sep_cons b t (hs b (List.mem_cons_self b t))]
    exact hasCC_no_colon _ hs

theorem no_colon_formatV4 (v : Nat) :
    ∀ ch ∈ formatV4 v, ch ≠ Char.ofNat 58 := by
  intro ch hch
  rcases mem_formatV4 hch with rfl | hd
  · decide
  · exact (digit_ne hd).2.1

theorem parseV6_ffff {lo : Nat} (h : lo < 2 ^ 32) :
    parseV6 (Char.ofNat 58 :: Char.ofNat 58 :: Char.ofNat 102 :: Char.ofNat 102
      :: Char.ofNat 102 :: Char.ofNat 102 :: Char.ofNat 58 :: formatV4 lo)
      = some (65535 * 2 ^ 32 + lo) := by
  have hffff : ∀ ch ∈ [Char.ofNat 102, Char.ofNat 102, Char.ofNat 102,
      Char.ofNat 102], ch ≠ Char.ofNat 58 := by decide
  have hshape : Char.ofNat 102 :: Char.ofNat 102 :: Char.ofNat 102
      :: Char.ofNat 102 :: Char.ofNat 58 :: formatV4 lo
      = [Char.ofNat 102, Char.ofNat 102, Char.ofNat 102, Char.ofNat 102]
        ++ Char.ofNat 58 :: formatV4 lo := rfl
  have hccR : hasCC (Char.ofNat 102 :: Char.ofNat 102 :: Char.ofNat 102
      :: Char.ofNat 102 :: Char.ofNat 58 :: formatV4 lo) = false := by
    rw [hshape, hasCC_append_no_colon _ _ hffff]
    exact hasCC_colon_cons_no_colon _ (no_colon_formatV4 lo)
  have hsplit : splitCC (Char.ofNat 58 :: Char.ofNat 58 :: Char.ofNat 102
      :: Char.ofNat 102 :: Char.ofNat 102 :: Char.ofNat 102 :: Char.ofNat 58
      :: formatV4 lo) = some ([], Char.ofNat 102 :: Char.ofNat 102
      :: Char.ofNat 102 :: Char.ofNat 102 :: Char.ofNat 58 :: formatV4 lo) := by
    simp [splitCC]
  have hsp : splitOnChar (Char.ofNat 58) (Char.ofNat 102 :: Char.ofNat 102
      :: Char.ofNat 102 :: Char.ofNat 102 :: Char.ofNat 58 :: formatV4 lo)
      = [[Char.ofNat 102, Char.ofNat 102, Char.ofNat 102, Char.ofNat 102],
        formatV4 lo] := by
    rw [hshape, splitOnChar_piece _ _ _ hffff,
      splitOnChar_no_sep _ _ (no_colon_formatV4 lo)]
  have hpf : parseFields true (splitOnChar (Char.ofNat 58) (Char.ofNat 102
      :: Char.ofNat 102 :: Char.ofNat 102 :: Char.ofNat 102 :: Char.ofNat 58
      :: formatV4 lo)) = some [65535, lo / 2 ^ 16, lo % 2 ^ 16] := by
    rw [hsp]
    unfold parseFields
    rw [show parseHexField [Char.ofNat 102, Char.ofNat 102, Char.ofNat 102,
      Char.ofNat 102] = some 65535 from by decide]
    have hsingle : parseFields true [formatV4 lo]
        = some [lo / 2 ^ 16, lo % 2 ^ 16] := by
      unfold parseFields
      rw [if_pos (dot_mem_formatV4 lo)]
      show Option.map _ (parseV4 (formatV4 lo)) = _
      rw [parseV4_formatV4 h]
      rfl
    rw [hsingle]
  have hgr : (if (Char.ofNat 102 :: Char.ofNat 102 :: Char.ofNat 102
      :: Char.ofNat 102 :: Char.ofNat 58 :: formatV4 lo) = ([] : GoStr)
      then some [] else parseFields true (splitOnChar (Char.ofNat 58)
        (Char.ofNat 102 :: Char.ofNat 102 :: Char.ofNat 102 :: Char.ofNat 102
          :: Char.ofNat 58 :: formatV4 lo)))
      = some [65535, lo / 2 ^ 16, lo % 2 ^ 16] := by
    rw [if_neg (by simp), hpf]
  have hlen7 : ([] : List Nat).length
      + [65535, lo / 2 ^ 16, lo % 2 ^ 16].length ≤ 7 := by simp
  rw [parseV6_eval _ [] _ [] [65535, lo / 2 ^ 16, lo % 2 ^ 16] hsplit
    (splitCC_eq_none hccR) (by rw [if_pos rfl]) hgr hlen7]
  have hlist : ([] : List Nat) ++ List.replicate
      (8 - ([] : List Nat).length - [65535, lo / 2 ^ 16, lo % 2 ^ 16].length) 0
      ++ [65535, lo / 2 ^ 16, lo % 2 ^ 16]
      = [0, 0, 0, 0, 0, 65535, lo / 2 ^ 16, lo % 2 ^ 16] := rfl
  rw [hlist]
  unfold assembleGroups
  simp only [List.foldl]
  have e16 : (2 : Nat) ^ 16 = 65536 := by norm_num
  have e32 : (2 : Nat) ^ 32 = 4294967296 := by norm_num
  rw [e16, e32]
  rw [e32] at h
  refine congrArg some ?_
  omega

theorem firstSpecial_dot (s : GoStr) (hdot : Char.ofNat 46 ∈ s)
    (hns : ∀ ch ∈ s, ch ≠ Char.ofNat 58 ∧ ch ≠ Char.ofNat 37) :
    firstSpecial s = some (Char.ofNat 46) := by
  induction s with
  | nil => exact absurd hdot (List.not_mem_nil _)
  | cons c t ih =>
    unfold firstSpecial
    by_cases hc : c = Char.ofNat 46 ∨ c = Char.ofNat 58 ∨ c = Char.ofNat 37
    · rw [if_pos hc]
      rcases hc with rfl | rfl | rfl
      · rfl
      · exact absurd rfl (hns _ (List.mem_cons_self _ _)).1
      · exact absurd rfl (hns _ (List.mem_cons_self _ _)).2
    · rw [if_neg hc]
      have hdt : Char.ofNat 46 ∈ t := by
        rcases List.mem_cons.mp hdot with h1 | h1
        · exact absurd (Or.inl h1.symm) hc
        · exact h1
      exact ih hdt (fun ch hch => hns ch (List.mem_cons_of_mem c hch))

theorem firstSpecial_colon (s : GoStr) (hcol : Char.ofNat 58 ∈ s)
    (hns : ∀ ch ∈ s, ch ≠ Char.ofNat 46 ∧ ch ≠ Char.ofNat 37) :
    firstSpecial s = some (Char.ofNat 58) := by
  induction s with
  | nil => exact absurd hcol (List.not_mem_nil _)
  | cons c t ih =>
    unfold firstSpecial
    by_cases hc : c = Char.ofNat 46 ∨ c = Char.ofNat 58 ∨ c = Char.ofNat 37
    · rw [if_pos hc]
      rcases hc with rfl | rfl | rfl
      · exact absurd rfl (hns _ (List.mem_cons_self _ _)).1
      · rfl
      · exact absurd rfl (hns _ (List.mem_cons_self _ _)).2
    · rw [if_neg hc]
      have hct : Char.ofNat 58 ∈ t := by
        rcases List.mem_cons.mp hcol with h1 | h1
        · exact absurd (Or.inr (Or.inl h1.symm)) hc
        · exact h1
      exact ih hct (fun ch hch => hns ch (List.mem_cons_of_mem c hch))

theorem mem_formatV6Groups {gs : List Nat} {ch : Char}
    (h : ch ∈ formatV6Groups gs) :
    ch = Char.ofNat 58 ∨ isHexDigitC ch = true := by
  unfold formatV6Groups at h
  cases hbr : bestRun gs with
  | none =>
    rw [hbr] at h
    dsimp only at h
    rcases mem_joinSep _ _ _ h with h1 | ⟨p, hp, hchp⟩
    · exact Or.inl h1
    · rcases List.mem_map.mp hp with ⟨g, _, rfl⟩
      exact Or.inr (mem_natToHex hchp)
  | some pr =>
    obtain ⟨zs, zl⟩ := pr
    rw [hbr] at h
    dsimp only at h
    rcases List.mem_append.mp h with h1 | h2
    · rcases mem_joinSep _ _ _ h1 with hx | ⟨p, hp, hchp⟩
      · exact Or.inl hx
      · rcases List.mem_map.mp hp with ⟨g, _, rfl⟩
        exact Or.inr (mem_natToHex hchp)
    · rcases List.mem_cons.mp h2 with rfl | h3
      · exact Or.inl rfl
      · rcases List.mem_cons.mp h3 with rfl | h4
        · exact Or.inl rfl
        · rcases mem_joinSep _ _ _ h4 with hx | ⟨p, hp, hchp⟩
          · exact Or.inl hx
          · rcases List.mem_map.mp hp with ⟨g, _, rfl⟩
            exact Or.inr (mem_natToHex hchp)

theorem colon_mem_formatV6Groups (v : Nat) :
    Char.ofNat 58 ∈ formatV6Groups (v6Groups v) := by
  unfold formatV6Groups
  cases hbr : bestRun (v6Groups v) with
  | none =>
    dsimp only
    rw [v6Groups_expand, List.map_cons, List.map_cons]
    exact sep_mem_joinSep _ _ _ _
  | some pr =>
    obtain ⟨zs, zl⟩ := pr
    dsimp only
    exact List.mem_append.mpr (Or.inr (List.mem_cons_self _ _))

theorem parseAddrM_formatAddr {a : Addr} (hWF : a.WF) (hfam : a.fam ≠ Fam.none) :
    parseAddrM (formatAddr a) = some a := by
  obtain ⟨fam, val⟩ := a
  cases fam with
  | none => exact absurd rfl hfam
  | v4 =>
    have hv : val < 2 ^ 32 := hWF
    show parseAddrM (formatV4 val) = some ⟨Fam.v4, val⟩
    unfold parseAddrM
    have hns : ∀ ch ∈ formatV4 val, ch ≠ Char.ofNat 58 ∧ ch ≠ Char.ofNat 37 := by
      intro ch hch
      rcases mem_formatV4 hch with rfl | hd
      · exact ⟨by decide, by decide⟩
      · exact ⟨(digit_ne hd).2.1, (digit_ne hd).2.2.2⟩
    rw [firstSpecial_dot _ (dot_mem_formatV4 val) hns]
    dsimp only
    rw [if_pos rfl, parseV4_formatV4 hv]
    rfl
  | v6 =>
    have hv : val < 2 ^ 128 := hWF
    by_cases h46 : is4in6 val
    · show parseAddrM (formatAddr ⟨Fam.v6, val⟩) = some ⟨Fam.v6, val⟩
      have hfa : formatAddr ⟨Fam.v6, val⟩ = Char.ofNat 58 :: Char.ofNat 58
          :: Char.ofNat 102 :: Char.ofNat 102 :: Char.ofNat 102 :: Char.ofNat 102
          :: Char.ofNat 58 :: formatV4 (val % 2 ^ 32) := by
        unfold formatAddr
        dsimp only
        rw [if_pos h46]
        rw [show "::ffff:".toList = [Char.ofNat 58, Char.ofNat 58, Char.ofNat 102,
          Char.ofNat 102, Char.ofNat 102, Char.ofNat 102, Char.ofNat 58]
          from by decide]
        rfl
      rw [hfa]
      unfold parseAddrM
      have hfs : firstSpecial (Char.ofNat 58 :: Char.ofNat 58 :: Char.ofNat 102
          :: Char.ofNat 102 :: Char.ofNat 102 :: Char.ofNat 102 :: Char.ofNat 58
          :: formatV4 (val % 2 ^ 32)) = some (Char.ofNat 58) := by
        unfold firstSpecial
        rw [if_pos (Or.inr (Or.inl rfl))]
      rw [hfs]
      dsimp only
      rw [if_neg (by decide), if_pos rfl,
        parseV6_ffff (Nat.mod_lt _ (by norm_num))]
      have hdiv : val / 2 ^ 32 = 65535 := by
        simp only [is4in6, beq_iff_eq] at h46
        exact h46
      have e32 : (2 : Nat) ^ 32 = 4294967296 := by norm_num
      have hval : 65535 * 2 ^ 32 + val % 2 ^ 32 = val := by
        rw [e32]
        rw [e32] at hdiv
        omega
      rw [hval]
      rfl
    · show parseAddrM (formatAddr ⟨Fam.v6, val⟩) = some ⟨Fam.v6, val⟩
      have hfa : formatAddr ⟨Fam.v6, val⟩ = formatV6Groups (v6Groups val) := by
        unfold formatAddr
        dsimp only
        rw [if_neg h46]
      rw [hfa]
      unfold parseAddrM
      have hns : ∀ ch ∈ formatV6Groups (v6Groups val),
          ch ≠ Char.ofNat 46 ∧ ch ≠ Char.ofNat 37 := by
        intro ch hch
        rcases mem_formatV6Groups hch with rfl | hx
        · exact ⟨by decide, by decide⟩
        · exact ⟨(hex_ne hx).2.2.1, (hex_ne hx).2.2.2⟩
      rw [firstSpecial_colon _ (colon_mem_formatV6Groups val) hns]
      dsimp only
      rw [if_neg (by decide), if_pos rfl]
      cases hbr : bestRun (v6Groups val) with
      | none => rw [parseV6_format_nocc hv hbr]; rfl
      | some pr =>
        obtain ⟨zs, zl⟩ := pr
        rw [parseV6_format_cc hv hbr]
        rfl


/-! ### Prefix round trip (C10) -/

theorem findIdx?_skip_acc (p : Char → Bool) :
    ∀ (l1 l2 : List Char) (i : Nat), (∀ a ∈ l1, p a = false) →
      List.findIdx? p (l1 ++ l2) i = List.findIdx? p l2 (i + l1.length) := by
  intro l1
  induction l1 with
  | nil =>
    intro l2 i h
    simp
  | cons a t ih =>
    intro l2 i h
    show (if p a then some i else List.findIdx? p (t ++ l2) (i + 1))
      = List.findIdx? p l2 (i + (a :: t).length)
    rw [h a (List.mem_cons_self a t)]
    show List.findIdx? p (t ++ l2) (i + 1) = List.findIdx? p l2 (i + (t.length + 1))
    rw [ih l2 (i + 1) (fun ch hch => h ch (List.mem_cons_of_mem a hch))]
    congr 1
    omega

theorem lastIdxOf_append (c : Char) (x y : GoStr) (hx : ∀ ch ∈ x, ch ≠ c)
    (hy : ∀ ch ∈ y, ch ≠ c) :
    lastIdxOf c (x ++ c :: y) = some x.length := by
  unfold lastIdxOf
  have hrev : (x ++ c :: y).reverse = y.reverse ++ c :: x.reverse := by
    rw [List.reverse_append, List.reverse_cons, List.append_assoc]
    rfl
  rw [hrev]
  rw [findIdx?_skip_acc _ y.reverse (c :: x.reverse) 0
    (fun a ha => decide_eq_false (hy a (List.mem_reverse.mp ha)))]
  have hhead : List.findIdx? (fun ch => decide (ch = c)) (c :: x.reverse)
      (0 + y.reverse.length) = some (0 + y.reverse.length) := by
    show (if decide (c = c) then some _ else _) = _
    rw [decide_eq_true rfl]
    rfl
  rw [hhead]
  show some ((x ++ c :: y).length - 1 - (0 + y.reverse.length)) = some x.length
  refine congrArg some ?_
  rw [List.length_append, List.length_cons, List.length_reverse]
  omega

theorem no_slash_formatAddr {a : Addr} (hfam : a.fam ≠ Fam.none) :
    ∀ ch ∈ formatAddr a, ch ≠ Char.ofNat 47 := by
  intro ch hch
  obtain ⟨fam, val⟩ := a
  cases fam with
  | none => exact absurd rfl hfam
  | v4 =>
    rcases mem_formatV4 hch with rfl | hd
    · decide
    · exact (digit_ne hd).1
  | v6 =>
    have hch' : ch ∈ formatAddr ⟨Fam.v6, val⟩ := hch
    unfold formatAddr at hch'
    dsimp only at hch'
    by_cases h46 : is4in6 val
    · rw [if_pos h46] at hch'
      rcases List.mem_append.mp hch' with h1 | h2
      · have : ch ∈ [Char.ofNat 58, Char.ofNat 58, Char.ofNat 102,
            Char.ofNat 102, Char.ofNat 102, Char.ofNat 102, Char.ofNat 58] := by
          rw [show ("::ffff:".toList : GoStr) = [Char.ofNat 58, Char.ofNat 58,
            Char.ofNat 102, Char.ofNat 102, Char.ofNat 102, Char.ofNat 102,
            Char.ofNat 58] from by decide] at h1
          exact h1
        simp only [List.mem_cons, List.not_mem_nil, or_false] at this
        rcases this with rfl | rfl | rfl | rfl | rfl | rfl | rfl <;> decide
      · rcases mem_formatV4 h2 with rfl | hd
        · decide
        · exact (digit_ne hd).1
    · rw [if_neg h46] at hch'
      rcases mem_formatV6Groups hch' with rfl | hx
      · decide
      · exact (hex_ne hx).1

theorem no_slash_natToDec {n : Nat} : ∀ ch ∈ natToDec n, ch ≠ Char.ofNat 47 :=
  fun ch hch => (digit_ne (mem_natToDec hch)).1

theorem prefix_isValid_of_WF {p : Prefix} (h : p.WF) : p.isValid = true := by
  obtain ⟨hfam, _, hb0, _⟩ := h
  unfold Prefix.isValid Addr.isValid
  simp only [Bool.and_eq_true, bne_iff_ne, ne_eq, decide_eq_true_eq]
  exact ⟨hfam, hb0⟩

theorem prefixToStr_WF {p : Prefix} (h : p.WF) :
    prefixToStr p = formatAddr p.ip ++ Char.ofNat 47 :: natToDec p.bits.toNat := by
  unfold prefixToStr
  rw [if_pos (prefix_isValid_of_WF h)]

theorem drop_len_succ_append (x : GoStr) (c : Char) (y : GoStr) :
    (x ++ c :: y).drop (x.length + 1) = y := by
  induction x with
  | nil => rfl
  | cons a t ih =>
    simp only [List.length_cons, List.cons_append, List.drop_succ_cons]
    exact ih

theorem parsePrefixM_prefixToStr {p : Prefix} (h : p.WF) :
    parsePrefixM (prefixToStr p) = some p := by
  obtain ⟨hfam, hwf, hb0, hble⟩ := h
  rw [prefixToStr_WF ⟨hfam, hwf, hb0, hble⟩]
  unfold parsePrefixM
  rw [lastIdxOf_append _ _ _ (no_slash_formatAddr hfam) no_slash_natToDec]
  dsimp only
  rw [List.take_left, drop_len_succ_append]
  rw [parseAddrM_formatAddr hwf hfam, parseBits_natToDec]
  have hint : p.bits.toNat ≤ p.ip.bitLen := Int.toNat_le.mpr hble
  dsimp only
  rw [if_pos hint]
  refine congrArg some ?_
  have : (p.bits.toNat : Int) = p.bits := Int.toNat_of_nonneg hb0
  rw [this]


/-! ### Pool identifier round trip (C10) -/

theorem poolIDFromString_poolIDString (pid : PoolID)
    (hsp : ∀ ch ∈ pid.addressSpace, ch ≠ Char.ofNat 47)
    (hsub : pid.subnet.WF)
    (hchild : pid.childSubnet = zeroPrefix ∨ pid.childSubnet.WF) :
    poolIDFromString (poolIDString pid) = .ok pid := by
  obtain ⟨as, sub, child⟩ := pid
  dsimp only at hsp hsub hchild ⊢
  have hps := prefixToStr_WF hsub
  have hnsA := no_slash_formatAddr hsub.1
  have hpp : parsePrefixM (formatAddr sub.ip
      ++ Char.ofNat 47 :: natToDec sub.bits.toNat) = some sub := by
    rw [← hps]
    exact parsePrefixM_prefixToStr hsub
  by_cases hz : child = zeroPrefix
  · subst hz
    have hstr : poolIDString ⟨as, sub, zeroPrefix⟩
        = as ++ Char.ofNat 47 :: prefixToStr sub := by
      unfold poolIDString
      dsimp only
      rw [if_pos rfl]
    rw [hstr]
    unfold poolIDFromString
    rw [if_neg (by simp)]
    have hsplit : splitOnChar (Char.ofNat 47) (as ++ Char.ofNat 47 :: prefixToStr sub)
        = [as, formatAddr sub.ip, natToDec sub.bits.toNat] := by
      rw [hps, splitOnChar_piece _ _ _ hsp, splitOnChar_piece _ _ _ hnsA,
        splitOnChar_no_sep _ _ no_slash_natToDec]
    rw [hsplit]
    dsimp only
    rw [if_neg (by simp), List.getD_cons_succ, List.getD_cons_succ,
      List.getD_cons_succ, List.getD_cons_zero, List.getD_cons_zero, hpp]
    dsimp only
    rw [if_neg (by simp), List.getD_cons_zero]
  · have hcw : child.WF := hchild.resolve_left hz
    have hps2 := prefixToStr_WF hcw
    have hnsA2 := no_slash_formatAddr hcw.1
    have hpp2 : parsePrefixM (formatAddr child.ip
        ++ Char.ofNat 47 :: natToDec child.bits.toNat) = some child := by
      rw [← hps2]
      exact parsePrefixM_prefixToStr hcw
    have hstr : poolIDString ⟨as, sub, child⟩
        = as ++ Char.ofNat 47 :: (prefixToStr sub
          ++ Char.ofNat 47 :: prefixToStr child) := by
      unfold poolIDString
      dsimp only
      rw [if_neg hz, List.append_assoc]
      rfl
    rw [hstr]
    unfold poolIDFromString
    rw [if_neg (by simp)]
    have hsplit : splitOnChar (Char.ofNat 47)
        (as ++ Char.ofNat 47 :: (prefixToStr sub
          ++ Char.ofNat 47 :: prefixToStr child))
        = [as, formatAddr sub.ip, natToDec sub.bits.toNat,
          formatAddr child.ip, natToDec child.bits.toNat] := by
      rw [hps, hps2]
      rw [splitOnChar_piece _ _ _ hsp]
      rw [List.append_assoc]
      have hshape : (Char.ofNat 47 :: natToDec sub.bits.toNat)
          ++ Char.ofNat 47 :: (formatAddr child.ip
            ++ Char.ofNat 47 :: natToDec child.bits.toNat)
          = Char.ofNat 47 :: (natToDec sub.bits.toNat
            ++ Char.ofNat 47 :: (formatAddr child.ip
              ++ Char.ofNat 47 :: natToDec child.bits.toNat)) := rfl
      rw [hshape]
      rw [splitOnChar_piece _ _ _ hnsA]
      rw [splitOnChar_piece _ _ _ no_slash_natToDec]
      rw [splitOnChar_piece _ _ _ hnsA2]
      rw [splitOnChar_no_sep _ _ no_slash_natToDec]
    rw [hsplit]
    dsimp only
    rw [if_neg (by simp)]
    simp only [List.getD_cons_succ, List.getD_cons_zero]
    rw [hpp]
    dsimp only
    rw [if_pos (by simp)]
    rw [hpp2]

/-- C10: for every `PoolID` whose address-space name contains no `/` and
whose subnet is well-formed (and child subnet too, when present),
`PoolIDFromString` inverts `PoolID.String`; and every string whose
`/`-separated component count is neither 3 nor 5 is rejected with
`InvalidParameter`. -/
theorem C10_poolid_roundtrip :
    (∀ pid : PoolID, (∀ ch ∈ pid.addressSpace, ch ≠ Char.ofNat 47) →
        pid.subnet.WF → (pid.childSubnet = zeroPrefix ∨ pid.childSubnet.WF) →
        poolIDFromString (poolIDString pid) = .ok pid) ∧
    (∀ s : GoStr, (splitOnChar (Char.ofNat 47) s).length ≠ 3 →
        (splitOnChar (Char.ofNat 47) s).length ≠ 5 →
        poolIDFromString s = .error .invalidParameter) := by
  constructor
  · exact poolIDFromString_poolIDString
  · intro s h3 h5
    unfold poolIDFromString
    by_cases hs : s = []
    · rw [if_pos hs]
    · rw [if_neg hs]
      show (if (splitOnChar (Char.ofNat 47) s).length ≠ 3
            ∧ (splitOnChar (Char.ofNat 47) s).length ≠ 5
          then Except.error Err.invalidParameter else _)
        = Except.error Err.invalidParameter
      rw [if_pos ⟨h3, h5⟩]

/-- Witness for C10: a concrete pool identifier round-trips, and a
two-component string is rejected. -/
theorem C10_poolid_roundtrip_witness :
    poolIDFromString (poolIDString
        ⟨[Char.ofNat 98], ⟨⟨Fam.v4, 167772160⟩, 8⟩, zeroPrefix⟩)
      = .ok ⟨[Char.ofNat 98], ⟨⟨Fam.v4, 167772160⟩, 8⟩, zeroPrefix⟩ ∧
    poolIDFromString [Char.ofNat 97] = .error .invalidParameter :=
  ⟨C10_poolid_roundtrip.1 _ (by decide) (by decide) (Or.inl rfl),
   C10_poolid_roundtrip.2 _ (by decide) (by decide)⟩

end IPAM
